import Mathlib

/-!
Shallow embedding of the bitcoin-exchange order matching and settlement
engine (Go sources: `main.go`, `balance.go`, the standing-order module and
the market-order module).

Modelling conventions:
* Go `int64` balances and quantities become `ℤ`.  The magnitudes involved in
  every statement below stay far below `2^63`, so two's-complement
  wrap-around is not modelled.
* Go `float64` prices and request amounts become `ℚ`;  Go's `int64(x)`
  conversion of a `float64` (truncation toward zero) becomes `truncQ`.
* The GORM store is a record of user rows and standing-order rows;
  `tx.Save` is replacement by primary key, `Create` appends a row with the
  next identifier.  Every function operates on the transaction's view of
  the store; a handler commits (keeps the final view) or rolls back (keeps
  the view from before the transaction).
* Outbound webhook calls and transaction boundaries are recorded as
  `Event`s so that their relative order can be stated.
-/

namespace BitcoinExchange

/-- Truncation toward zero: Go's `int64(x)` conversion of a `float64`. -/
def truncQ (q : ℚ) : ℤ := q.num.tdiv q.den

theorem truncQ_of_nonneg {q : ℚ} (h : 0 ≤ q) : truncQ q = ⌊q⌋ := by
  rw [truncQ, Rat.floor_def]
  exact Int.tdiv_eq_ediv (Rat.num_nonneg.mpr h) (by exact_mod_cast q.den_pos.le)

/-- `truncQ` indeed rounds toward zero. -/
theorem truncQ_eq_floor_or_ceil (q : ℚ) : truncQ q = if 0 ≤ q then ⌊q⌋ else ⌈q⌉ := by
  split_ifs with h
  · exact truncQ_of_nonneg h
  · have hneg : truncQ q = -truncQ (-q) := by
      rw [truncQ, truncQ, Rat.neg_num, Rat.neg_den, Int.neg_tdiv, neg_neg]
    have h' : 0 ≤ -q := by linarith [lt_of_not_le h]
    rw [hneg, truncQ_of_nonneg h', Int.floor_neg, neg_neg]

/-- Order direction; the Go code stores the validated strings `"BUY"`/`"SELL"`. -/
inductive OType where
  | buy : OType
  | sell : OType
deriving DecidableEq

/-- Order state; the Go code stores the strings `"LIVE"`, `"FULFILLED"`, `"CANCELLED"`. -/
inductive OState where
  | live : OState
  | fulfilled : OState
  | cancelled : OState
deriving DecidableEq

/-- A user row: `User` of the Go model (authentication token omitted). -/
structure User where
  id : String
  usdCentsBalance : ℤ
  btcSatoshiBalance : ℤ
deriving DecidableEq

/-- A standing-order row: `StandingOrder` of the Go model
(`otype` stands for the Go field `Type`, a reserved word here). -/
structure StandingOrder where
  id : ℤ
  userId : String
  otype : OType
  state : OState
  limitPrice : ℚ
  averagePrice : ℚ
  fulfilledQuantity : ℤ
  remainingQuantity : ℤ
  webhookURL : String
deriving DecidableEq

/-- The ledger store (the transaction's view of it). -/
structure DB where
  users : List User
  orders : List StandingOrder
  nextOrderId : ℤ
deriving DecidableEq

/-- Observable events: transaction boundaries and webhook notifications. -/
inductive Event where
  | txBegin : Event
  | txCommit : Event
  | txRollback : Event
  | webhook : ℤ → Event
deriving DecidableEq

/-- `tx.Save(user)`: replace the row with the same primary key. -/
def saveUser (db : DB) (u : User) : DB :=
  { db with users := db.users.map fun x => if x.id = u.id then u else x }

/-- `tx.Save(standingOrder)`: replace the row with the same primary key. -/
def saveOrder (db : DB) (o : StandingOrder) : DB :=
  { db with orders := db.orders.map fun x => if x.id = o.id then o else x }

/-- Point-read of a user row; a missing row yields GORM's zero-valued struct
(as `Preload("User")` leaves it for a dangling foreign key). -/
def findUser (db : DB) (uid : String) : User :=
  (db.users.find? fun x => x.id == uid).getD ⟨"", 0, 0⟩

/-- `PerformWebhookRequest`: fires one notification carrying the order's
identifier, unless the order has no webhook URL. -/
def PerformWebhookRequest (o : StandingOrder) : List Event :=
  if o.webhookURL = "" then [] else [Event.webhook o.id]

/-- Result of settling one fragment (`BuyViaStandingOrder` /
`SellViaStandingOrder`): the returned triple together with the mutated
in-memory structs, the store view after the three `Save` calls, and the
events emitted. -/
structure FragOut where
  satisfiedSatoshiAmount : ℤ
  transactionUsdCentsAmount : ℤ
  exhausted : Bool
  user : User
  seller : User
  order : StandingOrder
  db : DB
  events : List Event
deriving DecidableEq

/-- `User.BuyViaStandingOrder`: buy `satoshiAmount` Satoshis from one resting
SELL order using the demanding user's cash balance.  `seller` is the order's
owner as loaded by `Preload("User")` at page-fetch time. -/
def BuyViaStandingOrder (db : DB) (user seller : User) (standingOrder : StandingOrder)
    (satoshiAmount : ℤ) : FragOut :=
  let satoshiAmountBuyLimit := truncQ ((user.usdCentsBalance : ℚ) / standingOrder.limitPrice)
  let s1 := if satoshiAmount ≥ satoshiAmountBuyLimit then satoshiAmountBuyLimit else satoshiAmount
  let e1 : Bool := decide (satoshiAmount ≥ satoshiAmountBuyLimit)
  let satisfied :=
    if s1 > standingOrder.remainingQuantity then standingOrder.remainingQuantity else s1
  let exhausted : Bool := if s1 > standingOrder.remainingQuantity then false else e1
  let tFloat : ℚ := (satisfied : ℚ) * standingOrder.limitPrice
  let t := truncQ tFloat
  let user' := { user with
    usdCentsBalance := user.usdCentsBalance - t
    btcSatoshiBalance := user.btcSatoshiBalance + satisfied }
  let seller' := { seller with
    usdCentsBalance := seller.usdCentsBalance + t
    btcSatoshiBalance := seller.btcSatoshiBalance - satisfied }
  let order' := { standingOrder with
    averagePrice := (standingOrder.averagePrice * (standingOrder.fulfilledQuantity : ℚ) + tFloat) /
      ((standingOrder.fulfilledQuantity + satisfied : ℤ) : ℚ)
    fulfilledQuantity := standingOrder.fulfilledQuantity + satisfied
    remainingQuantity := standingOrder.remainingQuantity - satisfied
    state := if standingOrder.remainingQuantity - satisfied = 0 then OState.fulfilled
      else standingOrder.state }
  let db' := saveUser (saveUser (saveOrder db order') seller') user'
  ⟨satisfied, t, exhausted, user', seller', order', db', PerformWebhookRequest order'⟩

/-- `User.SellViaStandingOrder`: sell `satoshiAmount` of the demanding user's
Satoshis into one resting BUY order.  `buyer` is the order's owner as loaded
by `Preload("User")` at page-fetch time. -/
def SellViaStandingOrder (db : DB) (user buyer : User) (standingOrder : StandingOrder)
    (satoshiAmount : ℤ) : FragOut :=
  let satoshiAmountSellLimit := user.btcSatoshiBalance
  let s1 := if satoshiAmount ≥ satoshiAmountSellLimit then satoshiAmountSellLimit else satoshiAmount
  let e1 : Bool := decide (satoshiAmount ≥ satoshiAmountSellLimit)
  let satisfied :=
    if s1 > standingOrder.remainingQuantity then standingOrder.remainingQuantity else s1
  let exhausted : Bool := if s1 > standingOrder.remainingQuantity then false else e1
  let tFloat : ℚ := (satisfied : ℚ) * standingOrder.limitPrice
  let t := truncQ tFloat
  let user' := { user with
    usdCentsBalance := user.usdCentsBalance + t
    btcSatoshiBalance := user.btcSatoshiBalance - satisfied }
  let buyer' := { buyer with
    usdCentsBalance := buyer.usdCentsBalance - t
    btcSatoshiBalance := buyer.btcSatoshiBalance + satisfied }
  let order' := { standingOrder with
    averagePrice := (standingOrder.averagePrice * (standingOrder.fulfilledQuantity : ℚ) + tFloat) /
      ((standingOrder.fulfilledQuantity + satisfied : ℤ) : ℚ)
    fulfilledQuantity := standingOrder.fulfilledQuantity + satisfied
    remainingQuantity := standingOrder.remainingQuantity - satisfied
    state := if standingOrder.remainingQuantity - satisfied = 0 then OState.fulfilled
      else standingOrder.state }
  let db' := saveUser (saveUser (saveOrder db order') buyer') user'
  ⟨satisfied, t, exhausted, user', buyer', order', db', PerformWebhookRequest order'⟩

/-- Claim C2 as stated, at a BUY demand: the demand-side exhaustion flag is
set exactly when the requested quantity strictly exceeds the balance-derived
cap, unless the resting-side clamp binds. -/
def C2FlagAsStated (db : DB) (user seller : User) (o : StandingOrder) (req : ℤ) : Prop :=
  (BuyViaStandingOrder db user seller o req).exhausted =
    (decide (req > ⌊(user.usdCentsBalance : ℚ) / o.limitPrice⌋) &&
      !(decide (min req ⌊(user.usdCentsBalance : ℚ) / o.limitPrice⌋ > o.remainingQuantity)))

def sampleSeller : User := ⟨"S", 0, 1000⟩

def sampleBuyer : User := ⟨"U", 100, 0⟩

def sampleSellOrder : StandingOrder := ⟨1, "S", OType.sell, OState.live, 1, 0, 0, 200, ""⟩

def sampleDB : DB := ⟨[sampleBuyer, sampleSeller], [sampleSellOrder], 2⟩

/-- Claim C2, counterexample: with fiat balance 100, limit price 1 and
requested quantity 100 the cap is exactly met (not exceeded), yet the code
sets the exhaustion flag, because it compares with `>=` rather than `>`. -/
theorem c2_flag_counterexample :
    ¬ C2FlagAsStated sampleDB sampleBuyer sampleSeller sampleSellOrder 100 := by
  unfold C2FlagAsStated
  exact of_decide_eq_true (by with_unfolding_all rfl)

theorem buy_satisfied_eq (db : DB) (u s : User) (o : StandingOrder) (req : ℤ) :
    (BuyViaStandingOrder db u s o req).satisfiedSatoshiAmount =
      (if (if req ≥ truncQ ((u.usdCentsBalance : ℚ) / o.limitPrice) then
            truncQ ((u.usdCentsBalance : ℚ) / o.limitPrice) else req) > o.remainingQuantity then
        o.remainingQuantity
      else if req ≥ truncQ ((u.usdCentsBalance : ℚ) / o.limitPrice) then
        truncQ ((u.usdCentsBalance : ℚ) / o.limitPrice) else req) := rfl

theorem buy_exhausted_eq (db : DB) (u s : User) (o : StandingOrder) (req : ℤ) :
    (BuyViaStandingOrder db u s o req).exhausted =
      (if (if req ≥ truncQ ((u.usdCentsBalance : ℚ) / o.limitPrice) then
            truncQ ((u.usdCentsBalance : ℚ) / o.limitPrice) else req) > o.remainingQuantity then
        false
      else decide (req ≥ truncQ ((u.usdCentsBalance : ℚ) / o.limitPrice))) := rfl

theorem buy_transaction_eq (db : DB) (u s : User) (o : StandingOrder) (req : ℤ) :
    (BuyViaStandingOrder db u s o req).transactionUsdCentsAmount =
      truncQ ((((BuyViaStandingOrder db u s o req).satisfiedSatoshiAmount : ℤ) : ℚ) *
        o.limitPrice) := rfl

theorem sell_satisfied_eq (db : DB) (u s : User) (o : StandingOrder) (req : ℤ) :
    (SellViaStandingOrder db u s o req).satisfiedSatoshiAmount =
      (if (if req ≥ u.btcSatoshiBalance then u.btcSatoshiBalance else req) >
          o.remainingQuantity then
        o.remainingQuantity
      else if req ≥ u.btcSatoshiBalance then u.btcSatoshiBalance else req) := rfl

theorem sell_exhausted_eq (db : DB) (u s : User) (o : StandingOrder) (req : ℤ) :
    (SellViaStandingOrder db u s o req).exhausted =
      (if (if req ≥ u.btcSatoshiBalance then u.btcSatoshiBalance else req) >
          o.remainingQuantity then
        false
      else decide (req ≥ u.btcSatoshiBalance)) := rfl

theorem sell_transaction_eq (db : DB) (u s : User) (o : StandingOrder) (req : ℤ) :
    (SellViaStandingOrder db u s o req).transactionUsdCentsAmount =
      truncQ ((((SellViaStandingOrder db u s o req).satisfiedSatoshiAmount : ℤ) : ℚ) *
        o.limitPrice) := rfl

/-- Claim C2 (amended): the settled quantity is the requested quantity
clamped to the demand-side capacity (BUY: `⌊fiat / price⌋`; SELL: the crypto
balance) and then to the resting order's remaining quantity; the exhaustion
flag is set exactly when the requested quantity is at least (not strictly
above) the capacity and the resting-side clamp does not bind strictly; the
transacted fiat amount is `settledQty * limitPrice` truncated to integer
cents. -/
theorem c2_fragment_clamping (db : DB) (u s : User) (o : StandingOrder) (req : ℤ)
    (h1 : 0 ≤ u.usdCentsBalance) (h2 : 0 < o.limitPrice) :
    ((BuyViaStandingOrder db u s o req).satisfiedSatoshiAmount =
        min (min req ⌊(u.usdCentsBalance : ℚ) / o.limitPrice⌋) o.remainingQuantity ∧
      ((BuyViaStandingOrder db u s o req).exhausted = true ↔
        (⌊(u.usdCentsBalance : ℚ) / o.limitPrice⌋ ≤ req ∧
          min req ⌊(u.usdCentsBalance : ℚ) / o.limitPrice⌋ ≤ o.remainingQuantity)) ∧
      (BuyViaStandingOrder db u s o req).transactionUsdCentsAmount =
        truncQ (((min (min req ⌊(u.usdCentsBalance : ℚ) / o.limitPrice⌋)
          o.remainingQuantity : ℤ) : ℚ) * o.limitPrice)) ∧
    ((SellViaStandingOrder db u s o req).satisfiedSatoshiAmount =
        min (min req u.btcSatoshiBalance) o.remainingQuantity ∧
      ((SellViaStandingOrder db u s o req).exhausted = true ↔
        (u.btcSatoshiBalance ≤ req ∧
          min req u.btcSatoshiBalance ≤ o.remainingQuantity)) ∧
      (SellViaStandingOrder db u s o req).transactionUsdCentsAmount =
        truncQ (((min (min req u.btcSatoshiBalance) o.remainingQuantity : ℤ) : ℚ) *
          o.limitPrice)) := by
  have hc : truncQ ((u.usdCentsBalance : ℚ) / o.limitPrice) =
      ⌊(u.usdCentsBalance : ℚ) / o.limitPrice⌋ :=
    truncQ_of_nonneg (div_nonneg (by exact_mod_cast h1) h2.le)
  have hbs : (BuyViaStandingOrder db u s o req).satisfiedSatoshiAmount =
      min (min req ⌊(u.usdCentsBalance : ℚ) / o.limitPrice⌋) o.remainingQuantity := by
    rw [buy_satisfied_eq, hc]
    split_ifs <;> omega
  have hss : (SellViaStandingOrder db u s o req).satisfiedSatoshiAmount =
      min (min req u.btcSatoshiBalance) o.remainingQuantity := by
    rw [sell_satisfied_eq]
    split_ifs <;> omega
  refine ⟨⟨hbs, ?_, ?_⟩, hss, ?_, ?_⟩
  · rw [buy_exhausted_eq, hc]
    split_ifs <;> simp only [decide_eq_true_eq, Bool.false_eq_true, false_iff, ge_iff_le] <;>
      omega
  · rw [buy_transaction_eq, hbs]
  · rw [sell_exhausted_eq]
    split_ifs <;> simp only [decide_eq_true_eq, Bool.false_eq_true, false_iff, ge_iff_le] <;>
      omega
  · rw [sell_transaction_eq, hss]

/-- Claim C2, amended-theorem witness at a concrete input. -/
theorem c2_fragment_clamping_witness :
    (0 ≤ sampleBuyer.usdCentsBalance ∧ 0 < sampleSellOrder.limitPrice) ∧
    (SellViaStandingOrder sampleDB sampleBuyer sampleSeller
        sampleSellOrder 100).satisfiedSatoshiAmount =
      min (min 100 sampleBuyer.btcSatoshiBalance) sampleSellOrder.remainingQuantity :=
  ⟨⟨of_decide_eq_true (by with_unfolding_all rfl), of_decide_eq_true (by with_unfolding_all rfl)⟩,
    (c2_fragment_clamping sampleDB sampleBuyer sampleSeller sampleSellOrder 100
      (of_decide_eq_true (by with_unfolding_all rfl))
      (of_decide_eq_true (by with_unfolding_all rfl))).2.1⟩

/-- Claim C10: when the demanding user and the resting order's owner are
distinct users, one settled fragment conserves money: the buyer is debited
exactly the transacted fiat amount credited to the seller, the seller is
debited exactly the settled quantity credited to the buyer, and the two
parties' fiat and crypto sums are unchanged (in both fragment directions). -/
theorem c10_fragment_conservation (db : DB) (u s : User) (o : StandingOrder) (req : ℤ)
    (h : u.id ≠ s.id) :
    ((BuyViaStandingOrder db u s o req).user.usdCentsBalance +
        (BuyViaStandingOrder db u s o req).seller.usdCentsBalance =
        u.usdCentsBalance + s.usdCentsBalance ∧
      (BuyViaStandingOrder db u s o req).user.btcSatoshiBalance +
        (BuyViaStandingOrder db u s o req).seller.btcSatoshiBalance =
        u.btcSatoshiBalance + s.btcSatoshiBalance ∧
      (BuyViaStandingOrder db u s o req).user.usdCentsBalance =
        u.usdCentsBalance - (BuyViaStandingOrder db u s o req).transactionUsdCentsAmount ∧
      (BuyViaStandingOrder db u s o req).seller.usdCentsBalance =
        s.usdCentsBalance + (BuyViaStandingOrder db u s o req).transactionUsdCentsAmount ∧
      (BuyViaStandingOrder db u s o req).user.btcSatoshiBalance =
        u.btcSatoshiBalance + (BuyViaStandingOrder db u s o req).satisfiedSatoshiAmount ∧
      (BuyViaStandingOrder db u s o req).seller.btcSatoshiBalance =
        s.btcSatoshiBalance - (BuyViaStandingOrder db u s o req).satisfiedSatoshiAmount) ∧
    ((SellViaStandingOrder db u s o req).user.usdCentsBalance +
        (SellViaStandingOrder db u s o req).seller.usdCentsBalance =
        u.usdCentsBalance + s.usdCentsBalance ∧
      (SellViaStandingOrder db u s o req).user.btcSatoshiBalance +
        (SellViaStandingOrder db u s o req).seller.btcSatoshiBalance =
        u.btcSatoshiBalance + s.btcSatoshiBalance ∧
      (SellViaStandingOrder db u s o req).user.usdCentsBalance =
        u.usdCentsBalance + (SellViaStandingOrder db u s o req).transactionUsdCentsAmount ∧
      (SellViaStandingOrder db u s o req).seller.usdCentsBalance =
        s.usdCentsBalance - (SellViaStandingOrder db u s o req).transactionUsdCentsAmount ∧
      (SellViaStandingOrder db u s o req).user.btcSatoshiBalance =
        u.btcSatoshiBalance - (SellViaStandingOrder db u s o req).satisfiedSatoshiAmount ∧
      (SellViaStandingOrder db u s o req).seller.btcSatoshiBalance =
        s.btcSatoshiBalance + (SellViaStandingOrder db u s o req).satisfiedSatoshiAmount) := by
  unfold BuyViaStandingOrder SellViaStandingOrder
  refine ⟨⟨?_, ?_, ?_, ?_, ?_, ?_⟩, ?_, ?_, ?_, ?_, ?_, ?_⟩ <;> simp <;> omega

/-- Claim C10, witness at a concrete input. -/
theorem c10_fragment_conservation_witness :
    sampleBuyer.id ≠ sampleSeller.id ∧
    (BuyViaStandingOrder sampleDB sampleBuyer sampleSeller sampleSellOrder 5).user.usdCentsBalance +
      (BuyViaStandingOrder sampleDB sampleBuyer sampleSeller
        sampleSellOrder 5).seller.usdCentsBalance =
      sampleBuyer.usdCentsBalance + sampleSeller.usdCentsBalance :=
  ⟨of_decide_eq_true (by with_unfolding_all rfl),
    (c10_fragment_conservation sampleDB sampleBuyer sampleSeller sampleSellOrder 5
      (of_decide_eq_true (by with_unfolding_all rfl))).1.1⟩

/-- Ascending limit-price order: the `ORDER BY limit_price asc` of
`getStandingSellOrders`. -/
def priceLE (a b : StandingOrder) : Prop := a.limitPrice ≤ b.limitPrice

instance : DecidableRel priceLE := fun a b =>
  inferInstanceAs (Decidable (a.limitPrice ≤ b.limitPrice))

instance : IsTotal StandingOrder priceLE := ⟨fun a b => le_total a.limitPrice b.limitPrice⟩

instance : IsTrans StandingOrder priceLE := ⟨fun _ _ _ h h' => le_trans h h'⟩

/-- Descending limit-price order: the `ORDER BY limit_price desc` of
`getStandingBuyOrders`. -/
def priceGE (a b : StandingOrder) : Prop := b.limitPrice ≤ a.limitPrice

instance : DecidableRel priceGE := fun a b =>
  inferInstanceAs (Decidable (b.limitPrice ≤ a.limitPrice))

instance : IsTotal StandingOrder priceGE := ⟨fun a b => le_total b.limitPrice a.limitPrice⟩

instance : IsTrans StandingOrder priceGE := ⟨fun _ _ _ h h' => le_trans h' h⟩

/-- The SQL row filter of `getStandingSellOrders`: LIVE SELL orders, price
at most the (nonzero) limit. -/
def sellViewPred (lim : ℚ) (o : StandingOrder) : Bool :=
  decide (o.otype = OType.sell ∧ o.state = OState.live ∧ (lim = 0 ∨ o.limitPrice ≤ lim))

/-- The SQL row filter of `getStandingBuyOrders`: LIVE BUY orders, price at
least the (nonzero) limit. -/
def buyViewPred (lim : ℚ) (o : StandingOrder) : Bool :=
  decide (o.otype = OType.buy ∧ o.state = OState.live ∧ (lim = 0 ∨ lim ≤ o.limitPrice))

/-- The filtered and ordered view behind `getStandingSellOrders`: ascending
limit price. -/
def sellView (db : DB) (lim : ℚ) : List StandingOrder :=
  (db.orders.filter (sellViewPred lim)).insertionSort priceLE

/-- The filtered and ordered view behind `getStandingBuyOrders`: descending
limit price. -/
def buyView (db : DB) (lim : ℚ) : List StandingOrder :=
  (db.orders.filter (buyViewPred lim)).insertionSort priceGE

/-- `getStandingSellOrders`: one page of the SELL view together with each
order's owner as loaded by `Preload("User")` at fetch time; the Boolean is
the `NO_MATCHING_STANDING_ORDERS` signal (`RowsAffected < size`). -/
def getStandingSellOrders (db : DB) (lim : ℚ) (offset size : ℕ) :
    List (StandingOrder × User) × Bool :=
  let page := ((sellView db lim).drop offset).take size
  (page.map fun o => (o, findUser db o.userId), decide (page.length < size))

/-- `getStandingBuyOrders`: one page of the BUY view, as above. -/
def getStandingBuyOrders (db : DB) (lim : ℚ) (offset size : ℕ) :
    List (StandingOrder × User) × Bool :=
  let page := ((buyView db lim).drop offset).take size
  (page.map fun o => (o, findUser db o.userId), decide (page.length < size))

/-- One settled fragment (ghost record of one `BuyViaStandingOrder` /
`SellViaStandingOrder` call made by the scan). -/
structure Frag where
  orderId : ℤ
  price : ℚ
  qty : ℤ
  usd : ℤ
deriving DecidableEq

/-- Accumulated state of the matching scan of `BuySatoshis`/`SellSatoshis`:
the two running totals, the in-memory demanding user, the transaction's
store view, the fragments settled so far, the events emitted so far, and
whether the demand side's balance was exhausted (`break outerLoop`). -/
structure ScanState where
  satisfiedSatoshiAmount : ℤ
  usdCentsAmount : ℤ
  user : User
  db : DB
  frags : List Frag
  events : List Event
  exhausted : Bool
deriving DecidableEq

/-- The inner `for` loop of `BuySatoshis` over one fetched page; returns the
scan state and the outstanding wanted quantity. -/
def buyPageLoop (user : User) (db : DB) (wanted : ℤ) (page : List (StandingOrder × User))
    (sat usd : ℤ) (frags : List Frag) (events : List Event) : ScanState × ℤ :=
  match page with
  | [] => (⟨sat, usd, user, db, frags, events, false⟩, wanted)
  | (o, seller) :: rest =>
    let r := BuyViaStandingOrder db user seller o wanted
    let sat' := sat + r.satisfiedSatoshiAmount
    let usd' := usd + r.transactionUsdCentsAmount
    let wanted' := wanted - r.satisfiedSatoshiAmount
    let frags' := frags ++
      [⟨o.id, o.limitPrice, r.satisfiedSatoshiAmount, r.transactionUsdCentsAmount⟩]
    let events' := events ++ r.events
    if wanted' = 0 then (⟨sat', usd', r.user, r.db, frags', events', false⟩, wanted')
    else if r.exhausted then (⟨sat', usd', r.user, r.db, frags', events', true⟩, wanted')
    else buyPageLoop r.user r.db wanted' rest sat' usd' frags' events'

/-- The inner `for` loop of `SellSatoshis` over one fetched page. -/
def sellPageLoop (user : User) (db : DB) (wanted : ℤ) (page : List (StandingOrder × User))
    (sat usd : ℤ) (frags : List Frag) (events : List Event) : ScanState × ℤ :=
  match page with
  | [] => (⟨sat, usd, user, db, frags, events, false⟩, wanted)
  | (o, buyer) :: rest =>
    let r := SellViaStandingOrder db user buyer o wanted
    let sat' := sat + r.satisfiedSatoshiAmount
    let usd' := usd + r.transactionUsdCentsAmount
    let wanted' := wanted - r.satisfiedSatoshiAmount
    let frags' := frags ++
      [⟨o.id, o.limitPrice, r.satisfiedSatoshiAmount, r.transactionUsdCentsAmount⟩]
    let events' := events ++ r.events
    if wanted' = 0 then (⟨sat', usd', r.user, r.db, frags', events', false⟩, wanted')
    else if r.exhausted then (⟨sat', usd', r.user, r.db, frags', events', true⟩, wanted')
    else sellPageLoop r.user r.db wanted' rest sat' usd' frags' events'

/-- The paged `outerLoop` of `BuySatoshis`.  The Go loop terminates because
every iteration that continues has fulfilled a full page of ten orders,
shrinking the LIVE view; `fuel` bounds the iteration count and the call
site passes a bound that the loop never reaches. -/
def buyScanLoop (fuel : ℕ) (user : User) (db : DB) (wanted : ℤ) (lim : ℚ) (offset : ℕ)
    (sat usd : ℤ) (frags : List Frag) (events : List Event) : ScanState × ℤ :=
  match fuel with
  | 0 => (⟨sat, usd, user, db, frags, events, false⟩, wanted)
  | fuel + 1 =>
    if wanted ≤ 0 then (⟨sat, usd, user, db, frags, events, false⟩, wanted)
    else
      let fetched := getStandingSellOrders db lim offset 10
      let r := buyPageLoop user db wanted fetched.1 sat usd frags events
      if r.1.exhausted then r
      else if fetched.2 then r
      else buyScanLoop fuel r.1.user r.1.db r.2 lim (offset + 10) r.1.satisfiedSatoshiAmount
        r.1.usdCentsAmount r.1.frags r.1.events

/-- The paged `outerLoop` of `SellSatoshis`. -/
def sellScanLoop (fuel : ℕ) (user : User) (db : DB) (wanted : ℤ) (lim : ℚ) (offset : ℕ)
    (sat usd : ℤ) (frags : List Frag) (events : List Event) : ScanState × ℤ :=
  match fuel with
  | 0 => (⟨sat, usd, user, db, frags, events, false⟩, wanted)
  | fuel + 1 =>
    if wanted ≤ 0 then (⟨sat, usd, user, db, frags, events, false⟩, wanted)
    else
      let fetched := getStandingBuyOrders db lim offset 10
      let r := sellPageLoop user db wanted fetched.1 sat usd frags events
      if r.1.exhausted then r
      else if fetched.2 then r
      else sellScanLoop fuel r.1.user r.1.db r.2 lim (offset + 10) r.1.satisfiedSatoshiAmount
        r.1.usdCentsAmount r.1.frags r.1.events

/-- Result of a match attempt (`BuySatoshis` / `SellSatoshis`): `none` is
the `NO_MATCHING_STANDING_ORDERS` error, otherwise the satisfied Satoshi
amount and the volume-weighted average price in USD cents per Satoshi. -/
structure MatchOut where
  res : Option (ℤ × ℚ)
  user : User
  db : DB
  frags : List Frag
  events : List Event
deriving DecidableEq

/-- `User.BuySatoshis`: satisfy a BUY demand against the standing SELL
orders, page by page. -/
def BuySatoshis (db : DB) (user : User) (remainingSatoshiAmount : ℤ)
    (satoshiUsdCentsLimitPrice : ℚ) : MatchOut :=
  let r := buyScanLoop (db.orders.length + 1) user db remainingSatoshiAmount
    satoshiUsdCentsLimitPrice 0 0 0 [] []
  if r.1.satisfiedSatoshiAmount = 0 then ⟨none, r.1.user, r.1.db, r.1.frags, r.1.events⟩
  else ⟨some (r.1.satisfiedSatoshiAmount,
    (r.1.usdCentsAmount : ℚ) / ((r.1.satisfiedSatoshiAmount : ℤ) : ℚ)),
    r.1.user, r.1.db, r.1.frags, r.1.events⟩

/-- `User.SellSatoshis`: satisfy a SELL demand against the standing BUY
orders, page by page. -/
def SellSatoshis (db : DB) (user : User) (remainingSatoshiAmount : ℤ)
    (satoshiUsdCentsLimitPrice : ℚ) : MatchOut :=
  let r := sellScanLoop (db.orders.length + 1) user db remainingSatoshiAmount
    satoshiUsdCentsLimitPrice 0 0 0 [] []
  if r.1.satisfiedSatoshiAmount = 0 then ⟨none, r.1.user, r.1.db, r.1.frags, r.1.events⟩
  else ⟨some (r.1.satisfiedSatoshiAmount,
    (r.1.usdCentsAmount : ℚ) / ((r.1.satisfiedSatoshiAmount : ℤ) : ℚ)),
    r.1.user, r.1.db, r.1.frags, r.1.events⟩

/-- `User.Buy`: unit-conversion wrapper around `BuySatoshis` (BTC to
Satoshis, USD-per-BTC to cents-per-Satoshi and back). -/
def Buy (db : DB) (user : User) (amount : ℚ) (limitPrice : ℚ) : MatchOut × Option (ℚ × ℚ) :=
  let r := BuySatoshis db user (truncQ (amount * 100000000)) (limitPrice / 1000000)
  (r, r.res.map fun sp => (((sp.1 : ℤ) : ℚ) / 100000000, sp.2 * 1000000))

/-- `User.Sell`: unit-conversion wrapper around `SellSatoshis`. -/
def Sell (db : DB) (user : User) (amount : ℚ) (limitPrice : ℚ) : MatchOut × Option (ℚ × ℚ) :=
  let r := SellSatoshis db user (truncQ (amount * 100000000)) (limitPrice / 1000000)
  (r, r.res.map fun sp => (((sp.1 : ℤ) : ℚ) / 100000000, sp.2 * 1000000))

/-- `marketOrderHandler` on an authenticated user and a validated request:
one transaction around the match, rolled back on
`NO_MATCHING_STANDING_ORDERS` (HTTP 409), committed otherwise.  Returns the
committed store, the event trace, and the reported outcome. -/
def marketOrderHandler (db : DB) (userId : String) (otype : OType) (quantity : ℚ) :
    DB × List Event × Option (ℚ × ℚ) :=
  match db.users.find? fun x => x.id == userId with
  | none => (db, [Event.txBegin, Event.txRollback], none)
  | some user =>
    let r := if otype = OType.buy then Buy db user quantity 0 else Sell db user quantity 0
    match r.2 with
    | none => (db, Event.txBegin :: (r.1.events ++ [Event.txRollback]), none)
    | some out => (r.1.db, Event.txBegin :: (r.1.events ++ [Event.txCommit]), some out)

/-- A new standing order as submitted by the caller: quantity in BTC and
limit price in USD per BTC (`NewStandingOrder` of the Go model). -/
structure NewStandingOrder where
  otype : OType
  quantity : ℚ
  limitPrice : ℚ
  webhookURL : String
deriving DecidableEq

/-- `User.GetBlockedUsdCents`: fiat pledged by the remaining parts of the
user's LIVE BUY orders, each product truncated to whole cents. -/
def GetBlockedUsdCents (db : DB) (user : User) : ℤ :=
  ((db.orders.filter fun o => decide (o.otype = OType.buy ∧ o.state = OState.live ∧
    o.userId = user.id)).map fun o =>
      truncQ ((o.remainingQuantity : ℚ) * o.limitPrice)).sum

/-- `User.GetBlockedSatoshis`: crypto pledged by the remaining parts of the
user's LIVE SELL orders. -/
def GetBlockedSatoshis (db : DB) (user : User) : ℤ :=
  ((db.orders.filter fun o => decide (o.otype = OType.sell ∧ o.state = OState.live ∧
    o.userId = user.id)).map fun o => o.remainingQuantity).sum

/-- Result of `User.CreateStandingOrder`: the persisted order (whose `id`
the caller receives), the `INSUFFICIENT_BALANCE` outcome flag, the
committed store, and the events emitted before returning. -/
structure CreateOut where
  order : StandingOrder
  insufficientBalance : Bool
  db : DB
  events : List Event
deriving DecidableEq

/-- `User.CreateStandingOrder`: admission control.  The order is persisted
LIVE when the full requested quantity is covered by the issuer's free
balance, and persisted CANCELLED (with the `INSUFFICIENT_BALANCE` outcome)
otherwise; either way the creation commits and assigns the next
identifier.  The post-admission execution is launched asynchronously and is
modelled as the separate operation `Op.executeOrder`. -/
def CreateStandingOrder (db : DB) (user : User) (n : NewStandingOrder) : CreateOut :=
  let satoshiAmount := truncQ (n.quantity * 100000000)
  let limitUsdCentsSatoshiPrice := n.limitPrice / 1000000
  let state :=
    if n.otype = OType.buy then
      let availableUsdCentsAmount := user.usdCentsBalance - GetBlockedUsdCents db user
      let satoshiAmountBuyLimit :=
        truncQ ((availableUsdCentsAmount : ℚ) / limitUsdCentsSatoshiPrice)
      if satoshiAmount > satoshiAmountBuyLimit then OState.cancelled else OState.live
    else
      let satoshiAmountSellLimit := user.btcSatoshiBalance - GetBlockedSatoshis db user
      if satoshiAmount > satoshiAmountSellLimit then OState.cancelled else OState.live
  let o : StandingOrder := ⟨db.nextOrderId, user.id, n.otype, state,
    limitUsdCentsSatoshiPrice, 0, 0, satoshiAmount, n.webhookURL⟩
  ⟨o, decide (state = OState.cancelled), ⟨db.users, db.orders ++ [o], db.nextOrderId + 1⟩,
    [Event.txBegin, Event.txCommit]⟩

/-- `getStandingOrderFromDb`: point read by identifier. -/
def getStandingOrderFromDb (db : DB) (id : ℤ) : Option StandingOrder :=
  db.orders.find? fun o => o.id == id

/-- Outcome of `User.DeleteStandingOrder`. -/
inductive DeleteResult where
  | ok : DeleteResult
  | notFound : DeleteResult
  | permissionDenied : DeleteResult
deriving DecidableEq

/-- `User.DeleteStandingOrder`: cancellation.  Looks the order up, rejects a
non-owner, and otherwise sets the state to CANCELLED (whatever the current
state is), commits, and fires the order's webhook after the commit. -/
def DeleteStandingOrder (db : DB) (user : User) (id : ℤ) : DB × List Event × DeleteResult :=
  match getStandingOrderFromDb db id with
  | none => (db, [Event.txBegin, Event.txRollback], DeleteResult.notFound)
  | some o =>
    if o.userId ≠ user.id then
      (db, [Event.txBegin, Event.txRollback], DeleteResult.permissionDenied)
    else
      let o' := { o with state := OState.cancelled }
      (saveOrder db o', Event.txBegin :: Event.txCommit :: PerformWebhookRequest o',
        DeleteResult.ok)

/-- `User.ExecuteStandingOrder`: the background execution launched after a
successful admission.  It runs the matching scan for the order's remaining
quantity at its limit price, with the user struct and the order struct
closed over by the goroutine (snapshots from creation time), then updates
the order snapshot, commits, and fires the order's webhook after the
commit.  On `NO_MATCHING_STANDING_ORDERS` the transaction is rolled back. -/
def ExecuteStandingOrder (db : DB) (user : User) (standingOrder : StandingOrder) :
    DB × List Event :=
  let r := if standingOrder.otype = OType.buy then
      BuySatoshis db user standingOrder.remainingQuantity standingOrder.limitPrice
    else SellSatoshis db user standingOrder.remainingQuantity standingOrder.limitPrice
  match r.res with
  | none => (db, Event.txBegin :: (r.events ++ [Event.txRollback]))
  | some sp =>
    let o' := { standingOrder with
      averagePrice := (standingOrder.averagePrice * (standingOrder.fulfilledQuantity : ℚ) +
        sp.2 * ((sp.1 : ℤ) : ℚ)) / ((standingOrder.fulfilledQuantity + sp.1 : ℤ) : ℚ)
      fulfilledQuantity := standingOrder.fulfilledQuantity + sp.1
      remainingQuantity := standingOrder.remainingQuantity - sp.1
      state := if standingOrder.remainingQuantity - sp.1 = 0 then OState.fulfilled
        else standingOrder.state }
    (saveOrder r.db o',
      (Event.txBegin :: (r.events ++ [Event.txCommit])) ++ PerformWebhookRequest o')

/-- Top-up currency of a `postBalanceHandler` request. -/
inductive Currency where
  | btc : Currency
  | usd : Currency
deriving DecidableEq

/-- `postBalanceHandler` on an authenticated user and a validated request:
adds the converted top-up amount to the chosen balance and commits. -/
def postBalanceHandler (db : DB) (userId : String) (currency : Currency)
    (topupAmount : ℚ) : DB × List Event :=
  match db.users.find? fun x => x.id == userId with
  | none => (db, [Event.txBegin, Event.txRollback])
  | some user =>
    let user' :=
      if currency = Currency.usd then
        { user with usdCentsBalance := user.usdCentsBalance + truncQ (topupAmount * 100) }
      else
        { user with btcSatoshiBalance :=
            user.btcSatoshiBalance + truncQ (topupAmount * 100000000) }
    (saveUser db user', [Event.txBegin, Event.txCommit])

/-- `registerUser`: creates the user with both balances zero (or returns the
existing row). -/
def registerUser (db : DB) (userId : String) : DB × User :=
  match db.users.find? fun x => x.id == userId with
  | some u => (db, u)
  | none => (⟨db.users ++ [⟨userId, 0, 0⟩], db.orders, db.nextOrderId⟩, ⟨userId, 0, 0⟩)

/-- The operations of the system, as committed by their handlers.
`executeOrder` is the fire-and-forget background execution launched by a
successful `createOrder`; the goroutine closes over the user struct and the
order struct as they were at creation time, so the operation carries those
snapshots. -/
inductive Op where
  | register : String → Op
  | topup : String → Currency → ℚ → Op
  | createOrder : String → NewStandingOrder → Op
  | executeOrder : User → StandingOrder → Op
  | marketOrder : String → OType → ℚ → Op
  | cancelOrder : String → ℤ → Op
deriving DecidableEq

/-- The committed store after one operation. -/
def step (db : DB) (op : Op) : DB :=
  match op with
  | Op.register uid => (registerUser db uid).1
  | Op.topup uid c q => (postBalanceHandler db uid c q).1
  | Op.createOrder uid n =>
    match db.users.find? fun x => x.id == uid with
    | none => db
    | some u => (CreateStandingOrder db u n).db
  | Op.executeOrder uSnap oSnap => (ExecuteStandingOrder db uSnap oSnap).1
  | Op.marketOrder uid t q => (marketOrderHandler db uid t q).1
  | Op.cancelOrder uid oid =>
    match db.users.find? fun x => x.id == uid with
    | none => db
    | some u => (DeleteStandingOrder db u oid).1

/-- The committed store after a sequence of operations. -/
def run (db : DB) (ops : List Op) : DB := ops.foldl step db

/-- The store at system start. -/
def emptyDB : DB := ⟨[], [], 1⟩

theorem buyPageLoop_sums (page : List (StandingOrder × User)) :
    ∀ u db w sat usd frags evs,
      ∃ new : List Frag,
        (buyPageLoop u db w page sat usd frags evs).1.frags = frags ++ new ∧
        (buyPageLoop u db w page sat usd frags evs).1.satisfiedSatoshiAmount =
          sat + (new.map Frag.qty).sum ∧
        (buyPageLoop u db w page sat usd frags evs).1.usdCentsAmount =
          usd + (new.map Frag.usd).sum ∧
        (buyPageLoop u db w page sat usd frags evs).2 = w - (new.map Frag.qty).sum := by
  induction page with
  | nil =>
    intro u db w sat usd frags evs
    exact ⟨[], by simp [buyPageLoop]⟩
  | cons hd tl ih =>
    intro u db w sat usd frags evs
    obtain ⟨o, seller⟩ := hd
    simp only [buyPageLoop]
    set r := BuyViaStandingOrder db u seller o w with hr
    by_cases h0 : w - r.satisfiedSatoshiAmount = 0
    · refine ⟨[⟨o.id, o.limitPrice, r.satisfiedSatoshiAmount, r.transactionUsdCentsAmount⟩],
        ?_⟩
      simp [h0] <;> omega
    · by_cases h1 : r.exhausted
      · refine ⟨[⟨o.id, o.limitPrice, r.satisfiedSatoshiAmount,
          r.transactionUsdCentsAmount⟩], ?_⟩
        simp [h0, h1] <;> omega
      · obtain ⟨new, hf, hs, hu, hw2⟩ := ih r.user r.db (w - r.satisfiedSatoshiAmount)
          (sat + r.satisfiedSatoshiAmount) (usd + r.transactionUsdCentsAmount)
          (frags ++ [⟨o.id, o.limitPrice, r.satisfiedSatoshiAmount,
            r.transactionUsdCentsAmount⟩])
          (evs ++ r.events)
        refine ⟨⟨o.id, o.limitPrice, r.satisfiedSatoshiAmount,
          r.transactionUsdCentsAmount⟩ :: new, ?_, ?_, ?_, ?_⟩ <;>
          simp only [if_neg h0, if_neg h1] <;> simp [hf, hs, hu, hw2] <;> omega

theorem sellPageLoop_sums (page : List (StandingOrder × User)) :
    ∀ u db w sat usd frags evs,
      ∃ new : List Frag,
        (sellPageLoop u db w page sat usd frags evs).1.frags = frags ++ new ∧
        (sellPageLoop u db w page sat usd frags evs).1.satisfiedSatoshiAmount =
          sat + (new.map Frag.qty).sum ∧
        (sellPageLoop u db w page sat usd frags evs).1.usdCentsAmount =
          usd + (new.map Frag.usd).sum ∧
        (sellPageLoop u db w page sat usd frags evs).2 = w - (new.map Frag.qty).sum := by
  induction page with
  | nil =>
    intro u db w sat usd frags evs
    exact ⟨[], by simp [sellPageLoop]⟩
  | cons hd tl ih =>
    intro u db w sat usd frags evs
    obtain ⟨o, buyer⟩ := hd
    simp only [sellPageLoop]
    set r := SellViaStandingOrder db u buyer o w with hr
    by_cases h0 : w - r.satisfiedSatoshiAmount = 0
    · refine ⟨[⟨o.id, o.limitPrice, r.satisfiedSatoshiAmount, r.transactionUsdCentsAmount⟩],
        ?_⟩
      simp [h0] <;> omega
    · by_cases h1 : r.exhausted
      · refine ⟨[⟨o.id, o.limitPrice, r.satisfiedSatoshiAmount,
          r.transactionUsdCentsAmount⟩], ?_⟩
        simp [h0, h1] <;> omega
      · obtain ⟨new, hf, hs, hu, hw2⟩ := ih r.user r.db (w - r.satisfiedSatoshiAmount)
          (sat + r.satisfiedSatoshiAmount) (usd + r.transactionUsdCentsAmount)
          (frags ++ [⟨o.id, o.limitPrice, r.satisfiedSatoshiAmount,
            r.transactionUsdCentsAmount⟩])
          (evs ++ r.events)
        refine ⟨⟨o.id, o.limitPrice, r.satisfiedSatoshiAmount,
          r.transactionUsdCentsAmount⟩ :: new, ?_, ?_, ?_, ?_⟩ <;>
          simp only [if_neg h0, if_neg h1] <;> simp [hf, hs, hu, hw2] <;> omega

theorem buyScanLoop_sums (fuel : ℕ) :
    ∀ u db w lim off sat usd frags evs,
      ∃ new : List Frag,
        (buyScanLoop fuel u db w lim off sat usd frags evs).1.frags = frags ++ new ∧
        (buyScanLoop fuel u db w lim off sat usd frags evs).1.satisfiedSatoshiAmount =
          sat + (new.map Frag.qty).sum ∧
        (buyScanLoop fuel u db w lim off sat usd frags evs).1.usdCentsAmount =
          usd + (new.map Frag.usd).sum := by
  induction fuel with
  | zero =>
    intro u db w lim off sat usd frags evs
    exact ⟨[], by simp [buyScanLoop]⟩
  | succ fuel ih =>
    intro u db w lim off sat usd frags evs
    simp only [buyScanLoop]
    by_cases hw : w ≤ 0
    · exact ⟨[], by simp [hw]⟩
    · obtain ⟨new₁, hf₁, hs₁, hu₁, hw₁⟩ :=
        buyPageLoop_sums (getStandingSellOrders db lim off 10).1 u db w sat usd frags evs
      set pr := buyPageLoop u db w (getStandingSellOrders db lim off 10).1 sat usd frags evs
        with hpr
      by_cases hex : pr.1.exhausted
      · exact ⟨new₁, by simp [hw, hex, hf₁, hs₁, hu₁]⟩
      · by_cases hsh : (getStandingSellOrders db lim off 10).2
        · exact ⟨new₁, by simp [hw, hex, hsh, hf₁, hs₁, hu₁]⟩
        · obtain ⟨new₂, hf₂, hs₂, hu₂⟩ := ih pr.1.user pr.1.db pr.2 lim (off + 10)
            pr.1.satisfiedSatoshiAmount pr.1.usdCentsAmount pr.1.frags pr.1.events
          refine ⟨new₁ ++ new₂, ?_, ?_, ?_⟩ <;>
            simp only [if_neg hw, if_neg hex, if_neg hsh]
          · rw [hf₂, hf₁, List.append_assoc]
          · rw [hs₂, hs₁]
            simp [List.sum_append]
            omega
          · rw [hu₂, hu₁]
            simp [List.sum_append]
            omega

theorem sellScanLoop_sums (fuel : ℕ) :
    ∀ u db w lim off sat usd frags evs,
      ∃ new : List Frag,
        (sellScanLoop fuel u db w lim off sat usd frags evs).1.frags = frags ++ new ∧
        (sellScanLoop fuel u db w lim off sat usd frags evs).1.satisfiedSatoshiAmount =
          sat + (new.map Frag.qty).sum ∧
        (sellScanLoop fuel u db w lim off sat usd frags evs).1.usdCentsAmount =
          usd + (new.map Frag.usd).sum := by
  induction fuel with
  | zero =>
    intro u db w lim off sat usd frags evs
    exact ⟨[], by simp [sellScanLoop]⟩
  | succ fuel ih =>
    intro u db w lim off sat usd frags evs
    simp only [sellScanLoop]
    by_cases hw : w ≤ 0
    · exact ⟨[], by simp [hw]⟩
    · obtain ⟨new₁, hf₁, hs₁, hu₁, hw₁⟩ :=
        sellPageLoop_sums (getStandingBuyOrders db lim off 10).1 u db w sat usd frags evs
      set pr := sellPageLoop u db w (getStandingBuyOrders db lim off 10).1 sat usd frags evs
        with hpr
      by_cases hex : pr.1.exhausted
      · exact ⟨new₁, by simp [hw, hex, hf₁, hs₁, hu₁]⟩
      · by_cases hsh : (getStandingBuyOrders db lim off 10).2
        · exact ⟨new₁, by simp [hw, hex, hsh, hf₁, hs₁, hu₁]⟩
        · obtain ⟨new₂, hf₂, hs₂, hu₂⟩ := ih pr.1.user pr.1.db pr.2 lim (off + 10)
            pr.1.satisfiedSatoshiAmount pr.1.usdCentsAmount pr.1.frags pr.1.events
          refine ⟨new₁ ++ new₂, ?_, ?_, ?_⟩ <;>
            simp only [if_neg hw, if_neg hex, if_neg hsh]
          · rw [hf₂, hf₁, List.append_assoc]
          · rw [hs₂, hs₁]
            simp [List.sum_append]
            omega
          · rw [hu₂, hu₁]
            simp [List.sum_append]
            omega

theorem BuySatoshis_res (db : DB) (u : User) (w : ℤ) (lim : ℚ) :
    (BuySatoshis db u w lim).res =
      (if (buyScanLoop (db.orders.length + 1) u db w lim 0 0 0 [] []).1.satisfiedSatoshiAmount
          = 0 then none
      else some
        ((buyScanLoop (db.orders.length + 1) u db w lim 0 0 0 [] []).1.satisfiedSatoshiAmount,
          ((buyScanLoop (db.orders.length + 1) u db w lim 0 0 0
              [] []).1.usdCentsAmount : ℚ) /
            (((buyScanLoop (db.orders.length + 1) u db w lim 0 0 0
              [] []).1.satisfiedSatoshiAmount : ℤ) : ℚ))) := by
  simp only [BuySatoshis]
  split_ifs <;> rfl

theorem BuySatoshis_frags (db : DB) (u : User) (w : ℤ) (lim : ℚ) :
    (BuySatoshis db u w lim).frags =
      (buyScanLoop (db.orders.length + 1) u db w lim 0 0 0 [] []).1.frags := by
  simp only [BuySatoshis]
  split_ifs <;> rfl

theorem BuySatoshis_db (db : DB) (u : User) (w : ℤ) (lim : ℚ) :
    (BuySatoshis db u w lim).db =
      (buyScanLoop (db.orders.length + 1) u db w lim 0 0 0 [] []).1.db := by
  simp only [BuySatoshis]
  split_ifs <;> rfl

theorem SellSatoshis_res (db : DB) (u : User) (w : ℤ) (lim : ℚ) :
    (SellSatoshis db u w lim).res =
      (if (sellScanLoop (db.orders.length + 1) u db w lim 0 0 0 [] []).1.satisfiedSatoshiAmount
          = 0 then none
      else some
        ((sellScanLoop (db.orders.length + 1) u db w lim 0 0 0 [] []).1.satisfiedSatoshiAmount,
          ((sellScanLoop (db.orders.length + 1) u db w lim 0 0 0
              [] []).1.usdCentsAmount : ℚ) /
            (((sellScanLoop (db.orders.length + 1) u db w lim 0 0 0
              [] []).1.satisfiedSatoshiAmount : ℤ) : ℚ))) := by
  simp only [SellSatoshis]
  split_ifs <;> rfl

theorem SellSatoshis_frags (db : DB) (u : User) (w : ℤ) (lim : ℚ) :
    (SellSatoshis db u w lim).frags =
      (sellScanLoop (db.orders.length + 1) u db w lim 0 0 0 [] []).1.frags := by
  simp only [SellSatoshis]
  split_ifs <;> rfl

theorem SellSatoshis_db (db : DB) (u : User) (w : ℤ) (lim : ℚ) :
    (SellSatoshis db u w lim).db =
      (sellScanLoop (db.orders.length + 1) u db w lim 0 0 0 [] []).1.db := by
  simp only [SellSatoshis]
  split_ifs <;> rfl

/-- Claim C6: a match attempt returns the NO_LIQUIDITY outcome exactly when
the total settled quantity is zero; otherwise it returns the settled
quantity together with the volume-weighted average price (sum of fragment
fiat amounts divided by sum of fragment quantities), and on any successful
outcome — a partial fill included — the market-order handler commits the
match's store view. -/
theorem c6_match_outcome (db : DB) (u : User) (w : ℤ) (lim : ℚ) (uid : String)
    (t : OType) (q : ℚ) :
    (((BuySatoshis db u w lim).res = none ↔
        ((BuySatoshis db u w lim).frags.map Frag.qty).sum = 0) ∧
      ∀ p : ℤ × ℚ, (BuySatoshis db u w lim).res = some p →
        p.1 = ((BuySatoshis db u w lim).frags.map Frag.qty).sum ∧
        p.2 = ((((BuySatoshis db u w lim).frags.map Frag.usd).sum : ℤ) : ℚ) /
          ((((BuySatoshis db u w lim).frags.map Frag.qty).sum : ℤ) : ℚ)) ∧
    (((SellSatoshis db u w lim).res = none ↔
        ((SellSatoshis db u w lim).frags.map Frag.qty).sum = 0) ∧
      ∀ p : ℤ × ℚ, (SellSatoshis db u w lim).res = some p →
        p.1 = ((SellSatoshis db u w lim).frags.map Frag.qty).sum ∧
        p.2 = ((((SellSatoshis db u w lim).frags.map Frag.usd).sum : ℤ) : ℚ) /
          ((((SellSatoshis db u w lim).frags.map Frag.qty).sum : ℤ) : ℚ)) ∧
    ∀ usr, db.users.find? (fun x => x.id == uid) = some usr →
      (marketOrderHandler db uid t q).2.2.isSome = true →
      (marketOrderHandler db uid t q).1 =
        (if t = OType.buy then Buy db usr q 0 else Sell db usr q 0).1.db := by
  obtain ⟨nb, hbf, hbs, hbu⟩ :=
    buyScanLoop_sums (db.orders.length + 1) u db w lim 0 0 0 [] []
  obtain ⟨ns, hsf, hss, hsu⟩ :=
    sellScanLoop_sums (db.orders.length + 1) u db w lim 0 0 0 [] []
  simp only [List.nil_append] at hbf hbs hbu hsf hss hsu
  refine ⟨⟨?_, ?_⟩, ⟨?_, ?_⟩, ?_⟩
  · rw [BuySatoshis_res, BuySatoshis_frags, hbf]
    split_ifs with h <;> simp <;> omega
  · intro p hp
    rw [BuySatoshis_res] at hp
    rw [BuySatoshis_frags, hbf]
    split_ifs at hp with h
    rw [Option.some_inj] at hp
    subst hp
    constructor
    · simpa using hbs
    · have h1 : (buyScanLoop (db.orders.length + 1) u db w lim 0 0 0
          [] []).1.satisfiedSatoshiAmount = (nb.map Frag.qty).sum := by omega
      have h2 : (buyScanLoop (db.orders.length + 1) u db w lim 0 0 0
          [] []).1.usdCentsAmount = (nb.map Frag.usd).sum := by omega
      simp [h1, h2]
  · rw [SellSatoshis_res, SellSatoshis_frags, hsf]
    split_ifs with h <;> simp <;> omega
  · intro p hp
    rw [SellSatoshis_res] at hp
    rw [SellSatoshis_frags, hsf]
    split_ifs at hp with h
    rw [Option.some_inj] at hp
    subst hp
    constructor
    · simpa using hss
    · have h1 : (sellScanLoop (db.orders.length + 1) u db w lim 0 0 0
          [] []).1.satisfiedSatoshiAmount = (ns.map Frag.qty).sum := by omega
      have h2 : (sellScanLoop (db.orders.length + 1) u db w lim 0 0 0
          [] []).1.usdCentsAmount = (ns.map Frag.usd).sum := by omega
      simp [h1, h2]
  · intro usr husr
    simp only [marketOrderHandler, husr]
    rcases t with _ | _
    · simp only [if_pos rfl]
      cases hres : (Buy db usr q 0).2 with
      | none => simp [hres]
      | some out => simp [hres]
    · simp only [reduceCtorEq, if_neg, ite_false]
      cases hres : (Sell db usr q 0).2 with
      | none => simp [hres]
      | some out => simp [hres]

/-- Claim C6, witness: a successful partial-context match at a concrete
input reports exactly the fragment totals. -/
theorem c6_match_outcome_witness :
    (BuySatoshis sampleDB sampleBuyer 50 0).res = some (50, 1) ∧
    ((50 : ℤ), (1 : ℚ)).1 = ((BuySatoshis sampleDB sampleBuyer 50 0).frags.map Frag.qty).sum :=
  ⟨of_decide_eq_true (by with_unfolding_all rfl),
    ((c6_match_outcome sampleDB sampleBuyer 50 0 "U" OType.buy 0).1.2 (50, 1)
      (of_decide_eq_true (by with_unfolding_all rfl))).1⟩

/-- Operation sequence from registration that drives a balance negative:
user A pledges all crypto to a LIVE SELL order, spends the same crypto
through a market SELL (the market path caps by the total rather than the
free balance), and the later settlement of the still-LIVE resting order
debits A below zero.  Each fire-and-forget execution runs right after its
creation and is a no-op there. -/
def c1Ops : List Op :=
  [Op.register "A", Op.register "B", Op.register "C",
   Op.topup "A" Currency.btc 10,
   Op.createOrder "A" ⟨OType.sell, 10, 10000, ""⟩,
   Op.executeOrder ⟨"A", 0, 1000000000⟩
     ⟨1, "A", OType.sell, OState.live, 1/100, 0, 0, 1000000000, ""⟩,
   Op.topup "C" Currency.usd 200000,
   Op.createOrder "C" ⟨OType.buy, 10, 9000, ""⟩,
   Op.executeOrder ⟨"C", 20000000, 0⟩
     ⟨2, "C", OType.buy, OState.live, 9/1000, 0, 0, 1000000000, ""⟩,
   Op.marketOrder "A" OType.sell 10,
   Op.topup "B" Currency.usd 100000,
   Op.marketOrder "B" OType.buy 10]

/-- Claim C1 is violated by the code: after `c1Ops` — registrations,
nonnegative top-ups, admissions, executions, market orders, all committed —
user A's crypto balance is negative in the committed state. -/
theorem c1_negative_balance_reachable :
    (findUser (run emptyDB c1Ops) "A").btcSatoshiBalance = -1000000000 ∧
    (findUser (run emptyDB c1Ops) "A").btcSatoshiBalance < 0 :=
  of_decide_eq_true (by with_unfolding_all rfl)

def c4Buyer : User := ⟨"B", 1000000, 0⟩

def c4Seller : User := ⟨"S", 0, 2000⟩

def c4Order (i : ℤ) : StandingOrder :=
  ⟨i, "S", OType.sell, OState.live, (i : ℚ) / 100, 0, 0, 100, ""⟩

/-- Eleven LIVE SELL orders at distinct ascending prices, page size 10. -/
def c4DB : DB := ⟨[c4Buyer, c4Seller], (List.range 11).map fun i => c4Order (i + 1), 12⟩

set_option maxRecDepth 100000 in
/-- Claim C4 is violated by the code: the scan for 1200 Satoshis returns
with only 1000 settled and the demand side not exhausted, yet the eleventh
LIVE SELL order — eligible under the (empty) price filter — was never
considered: the first ten fulfilled orders leave the LIVE view, so the
second page at offset 10 comes back empty and is mistaken for book
exhaustion. -/
theorem c4_pagination_skips_live_order :
    (BuySatoshis c4DB c4Buyer 1200 0).res.map Prod.fst = some 1000 ∧
    (buyScanLoop (c4DB.orders.length + 1) c4Buyer c4DB 1200 0 0 0 0 [] []).1.exhausted =
      false ∧
    (BuySatoshis c4DB c4Buyer 1200 0).frags.map Frag.orderId =
      [1, 2, 3, 4, 5, 6, 7, 8, 9, 10] ∧
    (getStandingOrderFromDb (BuySatoshis c4DB c4Buyer 1200 0).db 11).map
      StandingOrder.state = some OState.live :=
  of_decide_eq_true (by with_unfolding_all rfl)

/-- Claim C5 as stated: in an operation's event trace, every notification
comes strictly after every commit of the enclosing transaction. -/
def NotificationsAfterCommit (tr : List Event) : Prop :=
  ∀ i j : ℕ, ∀ oid : ℤ, tr.get? i = some (Event.webhook oid) →
    tr.get? j = some Event.txCommit → j < i

def c5DB : DB := ⟨[⟨"B", 1000, 0⟩, ⟨"S", 0, 100⟩],
  [⟨1, "S", OType.sell, OState.live, 1 / 100, 0, 0, 100, "hook"⟩], 2⟩

/-- Claim C5 is violated by the code: a market order settling one fragment
fires the resting order's webhook inside the still-open transaction — the
trace is begin, webhook, commit — so the notification is not issued after
the commit. -/
theorem c5_notification_inside_transaction :
    (marketOrderHandler c5DB "B" OType.buy (1 / 1000000)).2.1 =
      [Event.txBegin, Event.webhook 1, Event.txCommit] ∧
    ¬ NotificationsAfterCommit (marketOrderHandler c5DB "B" OType.buy (1 / 1000000)).2.1 := by
  have h : (marketOrderHandler c5DB "B" OType.buy (1 / 1000000)).2.1 =
      [Event.txBegin, Event.webhook 1, Event.txCommit] :=
    of_decide_eq_true (by with_unfolding_all rfl)
  refine ⟨h, ?_⟩
  rw [h]
  intro hall
  have h12 := hall 1 2 1 rfl rfl
  omega

/-- The operations leading to a FULFILLED order, then its cancellation. -/
def c8OpsPrefix : List Op :=
  [Op.register "A", Op.register "B",
   Op.topup "A" Currency.btc 10,
   Op.createOrder "A" ⟨OType.sell, 10, 10000, ""⟩,
   Op.executeOrder ⟨"A", 0, 1000000000⟩
     ⟨1, "A", OType.sell, OState.live, 1/100, 0, 0, 1000000000, ""⟩,
   Op.topup "B" Currency.usd 200000,
   Op.marketOrder "B" OType.buy 10]

def c8Ops : List Op := c8OpsPrefix ++ [Op.cancelOrder "A" 1]

/-- Claim C8 is violated by the code: order 1 is FULFILLED after
`c8OpsPrefix`, yet the subsequent cancellation by its owner overwrites the
state to CANCELLED — FULFILLED is not terminal, because
`DeleteStandingOrder` never checks the current state. -/
theorem c8_fulfilled_not_terminal :
    (getStandingOrderFromDb (run emptyDB c8OpsPrefix) 1).map StandingOrder.state =
      some OState.fulfilled ∧
    (getStandingOrderFromDb (run emptyDB c8Ops) 1).map StandingOrder.state =
      some OState.cancelled :=
  of_decide_eq_true (by with_unfolding_all rfl)

/-- Claim C3 as stated, BUY case: an order is admitted LIVE exactly when its
requested quantity is at most the floor of the exact free balance — fiat
minus the exact sum of `remaining * limitPrice` over the user's LIVE BUY
orders — divided by the converted limit price. -/
def C3BuyAdmissionAsStated (db : DB) (u : User) (n : NewStandingOrder) : Prop :=
  (CreateStandingOrder db u n).order.state = OState.live ↔
    truncQ (n.quantity * 100000000) ≤
      ⌊((u.usdCentsBalance : ℚ) -
          ((db.orders.filter fun o => decide (o.otype = OType.buy ∧ o.state = OState.live ∧
            o.userId = u.id)).map fun o =>
              (o.remainingQuantity : ℚ) * o.limitPrice).sum) /
        (n.limitPrice / 1000000)⌋

def c3User : User := ⟨"D", 1, 0⟩

def c3DB : DB := ⟨[c3User], [⟨1, "D", OType.buy, OState.live, 1 / 100, 0, 0, 50, ""⟩], 2⟩

def c3New : NewStandingOrder := ⟨OType.buy, 1 / 1000000, 10000, ""⟩

/-- Claim C3, counterexample: with 1 cent of fiat, one LIVE BUY order of 50
Satoshis at price 0.01 cent, and a new BUY order for 100 Satoshis at the
same price, the code admits the order LIVE (the pledged half-cent truncates
to zero), while the claimed exact formula allows at most 50 Satoshis. -/
theorem c3_admission_counterexample : ¬ C3BuyAdmissionAsStated c3DB c3User c3New := by
  unfold C3BuyAdmissionAsStated
  exact of_decide_eq_true (by with_unfolding_all rfl)

/-- Claim C3 (amended): the blocked fiat is the sum of per-order products
each truncated to whole cents, and the quotient is truncated toward zero
(Go's `int64` conversions), rather than the exact floor formula; the rest
of the claim holds — LIVE exactly on full coverage by the free balance,
otherwise CANCELLED with remaining still the originally requested quantity;
either way the creation commits by appending the order under the next
identifier, and the insufficient-balance outcome accompanies exactly a
CANCELLED admission. -/
theorem c3_admission (db : DB) (u : User) (n : NewStandingOrder) :
    ((CreateStandingOrder db u n).order.state = OState.live ↔
      truncQ (n.quantity * 100000000) ≤
        (if n.otype = OType.buy then
          truncQ (((u.usdCentsBalance -
            ((db.orders.filter fun o => decide (o.otype = OType.buy ∧
              o.state = OState.live ∧ o.userId = u.id)).map fun o =>
                truncQ ((o.remainingQuantity : ℚ) * o.limitPrice)).sum : ℤ) : ℚ) /
            (n.limitPrice / 1000000))
        else u.btcSatoshiBalance -
          ((db.orders.filter fun o => decide (o.otype = OType.sell ∧
            o.state = OState.live ∧ o.userId = u.id)).map fun o =>
              o.remainingQuantity).sum)) ∧
    (CreateStandingOrder db u n).order.remainingQuantity =
      truncQ (n.quantity * 100000000) ∧
    (CreateStandingOrder db u n).order.fulfilledQuantity = 0 ∧
    (CreateStandingOrder db u n).order.id = db.nextOrderId ∧
    (CreateStandingOrder db u n).db.orders =
      db.orders ++ [(CreateStandingOrder db u n).order] ∧
    ((CreateStandingOrder db u n).insufficientBalance = true ↔
      (CreateStandingOrder db u n).order.state = OState.cancelled) := by
  rcases n with ⟨ot, qty, lp, url⟩
  rcases ot <;>
    simp only [CreateStandingOrder, GetBlockedUsdCents, GetBlockedSatoshis] <;>
    split_ifs with h <;> simp_all <;> omega

/-- Claim C9 as stated: an order born CANCELLED for insufficient balance,
with a notification target, triggers exactly one notification carrying its
identifier. -/
def C9AsStated (db : DB) (u : User) (n : NewStandingOrder) : Prop :=
  (CreateStandingOrder db u n).events.count
    (Event.webhook (CreateStandingOrder db u n).order.id) = 1

def c9User : User := ⟨"A", 0, 0⟩

def c9DB : DB := ⟨[c9User], [], 1⟩

def c9New : NewStandingOrder := ⟨OType.sell, 10, 10000, "hook"⟩

/-- Claim C9, counterexample: a SELL order for 10 BTC by a user with zero
crypto is born CANCELLED and has a webhook target, yet the creation path
fires no notification at all. -/
theorem c9_no_notification_counterexample : ¬ C9AsStated c9DB c9User c9New := by
  unfold C9AsStated
  exact of_decide_eq_true (by with_unfolding_all rfl)

/-- Claim C9 (amended): an admission-time cancellation fires no
notification — the creation path emits no webhook events whatsoever. -/
theorem c9_no_admission_notification (db : DB) (u : User) (n : NewStandingOrder)
    (h1 : (CreateStandingOrder db u n).order.state = OState.cancelled)
    (h2 : n.webhookURL ≠ "") :
    (CreateStandingOrder db u n).events.count
      (Event.webhook (CreateStandingOrder db u n).order.id) = 0 := by
  rw [List.count_eq_zero]
  simp [CreateStandingOrder]

/-- Claim C9, amended-theorem witness at a concrete input. -/
theorem c9_no_admission_notification_witness :
    ((CreateStandingOrder c9DB c9User c9New).order.state = OState.cancelled ∧
      c9New.webhookURL ≠ "") ∧
    (CreateStandingOrder c9DB c9User c9New).events.count
      (Event.webhook (CreateStandingOrder c9DB c9User c9New).order.id) = 0 :=
  ⟨⟨of_decide_eq_true (by with_unfolding_all rfl),
      of_decide_eq_true (by with_unfolding_all rfl)⟩,
    c9_no_admission_notification c9DB c9User c9New
      (of_decide_eq_true (by with_unfolding_all rfl))
      (of_decide_eq_true (by with_unfolding_all rfl))⟩

theorem buy_order_price_eq (db : DB) (u s : User) (o : StandingOrder) (req : ℤ) :
    (BuyViaStandingOrder db u s o req).order.limitPrice = o.limitPrice := rfl

theorem buy_db_orders_eq (db : DB) (u s : User) (o : StandingOrder) (req : ℤ) :
    (BuyViaStandingOrder db u s o req).db.orders =
      (saveOrder db (BuyViaStandingOrder db u s o req).order).orders := rfl

theorem buy_state_eq (db : DB) (u s : User) (o : StandingOrder) (req : ℤ) :
    (BuyViaStandingOrder db u s o req).order.state =
      (if o.remainingQuantity - (BuyViaStandingOrder db u s o req).satisfiedSatoshiAmount = 0
        then OState.fulfilled else o.state) := rfl

theorem sell_order_price_eq (db : DB) (u s : User) (o : StandingOrder) (req : ℤ) :
    (SellViaStandingOrder db u s o req).order.limitPrice = o.limitPrice := rfl

theorem sell_db_orders_eq (db : DB) (u s : User) (o : StandingOrder) (req : ℤ) :
    (SellViaStandingOrder db u s o req).db.orders =
      (saveOrder db (SellViaStandingOrder db u s o req).order).orders := rfl

theorem sell_state_eq (db : DB) (u s : User) (o : StandingOrder) (req : ℤ) :
    (SellViaStandingOrder db u s o req).order.state =
      (if o.remainingQuantity - (SellViaStandingOrder db u s o req).satisfiedSatoshiAmount = 0
        then OState.fulfilled else o.state) := rfl

/-- A fragment that neither exhausts the demand side nor finishes the wanted
quantity has fulfilled its resting order. -/
theorem buy_continue_fulfilled (db : DB) (u s : User) (o : StandingOrder) (req : ℤ)
    (hex : (BuyViaStandingOrder db u s o req).exhausted = false)
    (hw : req - (BuyViaStandingOrder db u s o req).satisfiedSatoshiAmount ≠ 0) :
    (BuyViaStandingOrder db u s o req).order.state = OState.fulfilled := by
  rw [buy_state_eq]
  rw [buy_exhausted_eq] at hex
  rw [buy_satisfied_eq] at hw ⊢
  split_ifs at hex hw ⊢ with h1 h2 <;> simp_all <;> omega

/-- Same for a SELL demand. -/
theorem sell_continue_fulfilled (db : DB) (u s : User) (o : StandingOrder) (req : ℤ)
    (hex : (SellViaStandingOrder db u s o req).exhausted = false)
    (hw : req - (SellViaStandingOrder db u s o req).satisfiedSatoshiAmount ≠ 0) :
    (SellViaStandingOrder db u s o req).order.state = OState.fulfilled := by
  rw [sell_state_eq]
  rw [sell_exhausted_eq] at hex
  rw [sell_satisfied_eq] at hw ⊢
  split_ifs at hex hw ⊢ with h1 h2 <;> simp_all <;> omega

/-- Replacing a row that fails the filter only removes entries from the
filtered view. -/
theorem filter_saveOrder_sublist (l : List StandingOrder) (o : StandingOrder)
    (p : StandingOrder → Bool) (ho : p o = false) :
    ((l.map fun x => if x.id = o.id then o else x).filter p).Sublist (l.filter p) := by
  induction l with
  | nil => simp
  | cons x xs ih =>
    by_cases hx : x.id = o.id
    · simp only [List.map_cons, if_pos hx, List.filter_cons, ho]
      cases hpx : p x
      · simpa using ih
      · simp only [cond_true]
        exact ih.trans (List.sublist_cons_self x (xs.filter p))
    · simp only [List.map_cons, if_neg hx, List.filter_cons]
      cases hpx : p x
      · simpa using ih
      · simpa using ih.cons₂ x

/-- In an ascending sorted list, fewer than `k + 1` entries lie strictly
below the entry at index `k`. -/
theorem sorted_le_countP_le (l : List ℚ) (hl : l.Sorted (· ≤ ·)) (k : ℕ) (hk : k < l.length) :
    l.countP (fun x => decide (x < l.get ⟨k, hk⟩)) ≤ k := by
  set q := l.get ⟨k, hk⟩ with hq
  have hsplit : l.take k ++ l.drop k = l := List.take_append_drop k l
  have hcsplit : l.countP (fun x => decide (x < q)) =
      (l.take k).countP (fun x => decide (x < q)) +
        (l.drop k).countP (fun x => decide (x < q)) := by
    conv_lhs => rw [← hsplit]
    rw [List.countP_append]
  have hdrop : (l.drop k).countP (fun x => decide (x < q)) = 0 := by
    rw [List.countP_eq_zero]
    intro a ha
    obtain ⟨i, hi⟩ := List.mem_iff_get.mp ha
    have hgi : (l.drop k).get i = l.get ⟨k + i.1, by have := i.2; simp at this; omega⟩ := by
      rw [List.get_drop]
    have hle : q ≤ l.get ⟨k + i.1, by have := i.2; simp at this; omega⟩ := by
      rcases Nat.eq_or_lt_of_le (Nat.le_add_right k i.1) with h | h
      · exact le_of_eq (by rw [hq]; congr 1; exact Fin.ext h)
      · exact List.pairwise_iff_get.mp hl ⟨k, hk⟩ ⟨k + i.1, _⟩ h
    simp only [← hi, hgi, decide_eq_true_eq]
    intro hlt
    exact absurd hle (not_le.mpr hlt)
  have htlen : (l.take k).countP (fun x => decide (x < q)) ≤ (l.take k).length :=
    List.countP_le_length _
  have hklen : (l.take k).length ≤ k := by simp
  omega

/-- If at most `m` entries of an ascending sorted list lie strictly below
`p`, every entry from index `m` on is at least `p`. -/
theorem sorted_le_drop_ge (l : List ℚ) (hl : l.Sorted (· ≤ ·)) (m : ℕ) (p : ℚ)
    (hc : l.countP (fun x => decide (x < p)) ≤ m) : ∀ x ∈ l.drop m, p ≤ x := by
  intro x hx
  by_contra hlt
  push_neg at hlt
  obtain ⟨i, hi⟩ := List.mem_iff_get.mp hx
  have him : m + i.1 < l.length := by have := i.2; simp at this; omega
  have hgi : (l.drop m).get i = l.get ⟨m + i.1, him⟩ := by
    rw [List.get_drop]
  have hall : ∀ j : Fin l.length, j.1 ≤ m + i.1 → l.get j < p := by
    intro j hj
    rcases Nat.eq_or_lt_of_le hj with h | h
    · rw [show j = ⟨m + i.1, him⟩ from Fin.ext h, ← hgi, hi]
      exact hlt
    · calc l.get j ≤ l.get ⟨m + i.1, him⟩ := List.pairwise_iff_get.mp hl j ⟨m + i.1, him⟩ h
        _ < p := by rw [← hgi, hi]; exact hlt
  have htake : ((l.take (m + i.1 + 1)).countP (fun x => decide (x < p))) =
      (l.take (m + i.1 + 1)).length := by
    rw [List.countP_eq_length]
    intro a ha
    obtain ⟨j, hj⟩ := List.mem_iff_get.mp ha
    have hjl : j.1 < l.length := by have := j.2; simp at this; omega
    have hjt : (l.take (m + i.1 + 1)).get j = l.get ⟨j.1, hjl⟩ := List.get_take' l
    rw [← hj, hjt]
    simp only [decide_eq_true_eq]
    have hjb : j.1 ≤ m + i.1 := by have := j.2; simp at this; omega
    exact hall ⟨j.1, hjl⟩ hjb
  have hlen : (l.take (m + i.1 + 1)).length = m + i.1 + 1 := by simp; omega
  have hsplit : l.take (m + i.1 + 1) ++ l.drop (m + i.1 + 1) = l :=
    List.take_append_drop (m + i.1 + 1) l
  have hcsplit : l.countP (fun x => decide (x < p)) =
      (l.take (m + i.1 + 1)).countP (fun x => decide (x < p)) +
        (l.drop (m + i.1 + 1)).countP (fun x => decide (x < p)) := by
    conv_lhs => rw [← hsplit]
    rw [List.countP_append]
  omega

/-- Descending variant of `sorted_le_countP_le`. -/
theorem sorted_ge_countP_le (l : List ℚ) (hl : l.Sorted (· ≥ ·)) (k : ℕ) (hk : k < l.length) :
    l.countP (fun x => decide (l.get ⟨k, hk⟩ < x)) ≤ k := by
  set q := l.get ⟨k, hk⟩ with hq
  have hsplit : l.take k ++ l.drop k = l := List.take_append_drop k l
  have hcsplit : l.countP (fun x => decide (q < x)) =
      (l.take k).countP (fun x => decide (q < x)) +
        (l.drop k).countP (fun x => decide (q < x)) := by
    conv_lhs => rw [← hsplit]
    rw [List.countP_append]
  have hdrop : (l.drop k).countP (fun x => decide (q < x)) = 0 := by
    rw [List.countP_eq_zero]
    intro a ha
    obtain ⟨i, hi⟩ := List.mem_iff_get.mp ha
    have hgi : (l.drop k).get i = l.get ⟨k + i.1, by have := i.2; simp at this; omega⟩ := by
      rw [List.get_drop]
    have hle : l.get ⟨k + i.1, by have := i.2; simp at this; omega⟩ ≤ q := by
      rcases Nat.eq_or_lt_of_le (Nat.le_add_right k i.1) with h | h
      · exact le_of_eq (by rw [hq]; congr 1; exact (Fin.ext h).symm)
      · exact List.pairwise_iff_get.mp hl ⟨k, hk⟩ ⟨k + i.1, _⟩ h
    simp only [← hi, hgi, decide_eq_true_eq]
    intro hlt
    exact absurd hle (not_le.mpr hlt)
  have htlen : (l.take k).countP (fun x => decide (q < x)) ≤ (l.take k).length :=
    List.countP_le_length _
  have hklen : (l.take k).length ≤ k := by simp
  omega

/-- Descending variant of `sorted_le_drop_ge`. -/
theorem sorted_ge_drop_le (l : List ℚ) (hl : l.Sorted (· ≥ ·)) (m : ℕ) (p : ℚ)
    (hc : l.countP (fun x => decide (p < x)) ≤ m) : ∀ x ∈ l.drop m, x ≤ p := by
  intro x hx
  by_contra hlt
  push_neg at hlt
  obtain ⟨i, hi⟩ := List.mem_iff_get.mp hx
  have him : m + i.1 < l.length := by have := i.2; simp at this; omega
  have hgi : (l.drop m).get i = l.get ⟨m + i.1, him⟩ := by
    rw [List.get_drop]
  have hall : ∀ j : Fin l.length, j.1 ≤ m + i.1 → p < l.get j := by
    intro j hj
    rcases Nat.eq_or_lt_of_le hj with h | h
    · rw [show j = ⟨m + i.1, him⟩ from Fin.ext h, ← hgi, hi]
      exact hlt
    · calc p < l.get ⟨m + i.1, him⟩ := by rw [← hgi, hi]; exact hlt
        _ ≤ l.get j := List.pairwise_iff_get.mp hl j ⟨m + i.1, him⟩ h
  have htake : ((l.take (m + i.1 + 1)).countP (fun x => decide (p < x))) =
      (l.take (m + i.1 + 1)).length := by
    rw [List.countP_eq_length]
    intro a ha
    obtain ⟨j, hj⟩ := List.mem_iff_get.mp ha
    have hjl : j.1 < l.length := by have := j.2; simp at this; omega
    have hjt : (l.take (m + i.1 + 1)).get j = l.get ⟨j.1, hjl⟩ := List.get_take' l
    rw [← hj, hjt]
    simp only [decide_eq_true_eq]
    have hjb : j.1 ≤ m + i.1 := by have := j.2; simp at this; omega
    exact hall ⟨j.1, hjl⟩ hjb
  have hlen : (l.take (m + i.1 + 1)).length = m + i.1 + 1 := by simp; omega
  have hsplit : l.take (m + i.1 + 1) ++ l.drop (m + i.1 + 1) = l :=
    List.take_append_drop (m + i.1 + 1) l
  have hcsplit : l.countP (fun x => decide (p < x)) =
      (l.take (m + i.1 + 1)).countP (fun x => decide (p < x)) +
        (l.drop (m + i.1 + 1)).countP (fun x => decide (p < x)) := by
    conv_lhs => rw [← hsplit]
    rw [List.countP_append]
  omega

theorem buyPageLoop_prices (page : List (StandingOrder × User)) :
    ∀ u db w sat usd frags evs,
      ∃ (new : List Frag) (k : ℕ),
        (buyPageLoop u db w page sat usd frags evs).1.frags = frags ++ new ∧
        new.map Frag.price = (page.map fun pr => pr.1.limitPrice).take k := by
  induction page with
  | nil =>
    intro u db w sat usd frags evs
    exact ⟨[], 0, by simp [buyPageLoop]⟩
  | cons hd tl ih =>
    intro u db w sat usd frags evs
    obtain ⟨o, seller⟩ := hd
    simp only [buyPageLoop]
    set r := BuyViaStandingOrder db u seller o w with hr
    by_cases h0 : w - r.satisfiedSatoshiAmount = 0
    · refine ⟨[⟨o.id, o.limitPrice, r.satisfiedSatoshiAmount, r.transactionUsdCentsAmount⟩],
        1, ?_⟩
      simp [h0]
    · by_cases h1 : r.exhausted
      · refine ⟨[⟨o.id, o.limitPrice, r.satisfiedSatoshiAmount,
          r.transactionUsdCentsAmount⟩], 1, ?_⟩
        simp [h0, h1]
      · obtain ⟨new, k, hf, hpr⟩ := ih r.user r.db (w - r.satisfiedSatoshiAmount)
          (sat + r.satisfiedSatoshiAmount) (usd + r.transactionUsdCentsAmount)
          (frags ++ [⟨o.id, o.limitPrice, r.satisfiedSatoshiAmount,
            r.transactionUsdCentsAmount⟩])
          (evs ++ r.events)
        refine ⟨⟨o.id, o.limitPrice, r.satisfiedSatoshiAmount,
          r.transactionUsdCentsAmount⟩ :: new, k + 1, ?_, ?_⟩
        · simp only [if_neg h0, if_neg h1]
          simpa using hf
        · simp only [if_neg h0, if_neg h1, List.map_cons, List.take_succ_cons]
          rw [hpr]

theorem sellPageLoop_prices (page : List (StandingOrder × User)) :
    ∀ u db w sat usd frags evs,
      ∃ (new : List Frag) (k : ℕ),
        (sellPageLoop u db w page sat usd frags evs).1.frags = frags ++ new ∧
        new.map Frag.price = (page.map fun pr => pr.1.limitPrice).take k := by
  induction page with
  | nil =>
    intro u db w sat usd frags evs
    exact ⟨[], 0, by simp [sellPageLoop]⟩
  | cons hd tl ih =>
    intro u db w sat usd frags evs
    obtain ⟨o, buyer⟩ := hd
    simp only [sellPageLoop]
    set r := SellViaStandingOrder db u buyer o w with hr
    by_cases h0 : w - r.satisfiedSatoshiAmount = 0
    · refine ⟨[⟨o.id, o.limitPrice, r.satisfiedSatoshiAmount, r.transactionUsdCentsAmount⟩],
        1, ?_⟩
      simp [h0]
    · by_cases h1 : r.exhausted
      · refine ⟨[⟨o.id, o.limitPrice, r.satisfiedSatoshiAmount,
          r.transactionUsdCentsAmount⟩], 1, ?_⟩
        simp [h0, h1]
      · obtain ⟨new, k, hf, hpr⟩ := ih r.user r.db (w - r.satisfiedSatoshiAmount)
          (sat + r.satisfiedSatoshiAmount) (usd + r.transactionUsdCentsAmount)
          (frags ++ [⟨o.id, o.limitPrice, r.satisfiedSatoshiAmount,
            r.transactionUsdCentsAmount⟩])
          (evs ++ r.events)
        refine ⟨⟨o.id, o.limitPrice, r.satisfiedSatoshiAmount,
          r.transactionUsdCentsAmount⟩ :: new, k + 1, ?_, ?_⟩
        · simp only [if_neg h0, if_neg h1]
          simpa using hf
        · simp only [if_neg h0, if_neg h1, List.map_cons, List.take_succ_cons]
          rw [hpr]

theorem buyPageLoop_filter (p : StandingOrder → Bool)
    (hp : ∀ x, x.state = OState.fulfilled → p x = false)
    (page : List (StandingOrder × User)) :
    ∀ u db w sat usd frags evs,
      (buyPageLoop u db w page sat usd frags evs).1.exhausted = false →
      (buyPageLoop u db w page sat usd frags evs).2 ≠ 0 →
      (((buyPageLoop u db w page sat usd frags evs).1.db.orders.filter p)).Sublist
        ((db.orders.filter p)) := by
  induction page with
  | nil =>
    intro u db w sat usd frags evs hex hw
    simp [buyPageLoop]
  | cons hd tl ih =>
    intro u db w sat usd frags evs hex hw
    obtain ⟨o, seller⟩ := hd
    simp only [buyPageLoop] at hex hw ⊢
    set r := BuyViaStandingOrder db u seller o w with hr
    by_cases h0 : w - r.satisfiedSatoshiAmount = 0
    · rw [if_pos h0] at hw
      exact absurd h0 (by simpa using hw)
    · by_cases h1 : r.exhausted
      · rw [if_neg h0, if_pos h1] at hex
        simp at hex
      · rw [if_neg h0, if_neg h1] at hex hw ⊢
        have hful : r.order.state = OState.fulfilled :=
          buy_continue_fulfilled db u seller o w (by simpa using h1) h0
        have hdbo : r.db.orders =
            db.orders.map fun x => if x.id = r.order.id then r.order else x := rfl
        have hsub1 : ((r.db.orders.filter p)).Sublist ((db.orders.filter p)) := by
          rw [hdbo]
          exact filter_saveOrder_sublist db.orders r.order p (hp r.order hful)
        exact (ih r.user r.db (w - r.satisfiedSatoshiAmount)
          (sat + r.satisfiedSatoshiAmount) (usd + r.transactionUsdCentsAmount)
          (frags ++ [⟨o.id, o.limitPrice, r.satisfiedSatoshiAmount,
            r.transactionUsdCentsAmount⟩])
          (evs ++ r.events) hex hw).trans hsub1

theorem sellPageLoop_filter (p : StandingOrder → Bool)
    (hp : ∀ x, x.state = OState.fulfilled → p x = false)
    (page : List (StandingOrder × User)) :
    ∀ u db w sat usd frags evs,
      (sellPageLoop u db w page sat usd frags evs).1.exhausted = false →
      (sellPageLoop u db w page sat usd frags evs).2 ≠ 0 →
      (((sellPageLoop u db w page sat usd frags evs).1.db.orders.filter p)).Sublist
        ((db.orders.filter p)) := by
  induction page with
  | nil =>
    intro u db w sat usd frags evs hex hw
    simp [sellPageLoop]
  | cons hd tl ih =>
    intro u db w sat usd frags evs hex hw
    obtain ⟨o, buyer⟩ := hd
    simp only [sellPageLoop] at hex hw ⊢
    set r := SellViaStandingOrder db u buyer o w with hr
    by_cases h0 : w - r.satisfiedSatoshiAmount = 0
    · rw [if_pos h0] at hw
      exact absurd h0 (by simpa using hw)
    · by_cases h1 : r.exhausted
      · rw [if_neg h0, if_pos h1] at hex
        simp at hex
      · rw [if_neg h0, if_neg h1] at hex hw ⊢
        have hful : r.order.state = OState.fulfilled :=
          sell_continue_fulfilled db u buyer o w (by simpa using h1) h0
        have hdbo : r.db.orders =
            db.orders.map fun x => if x.id = r.order.id then r.order else x := rfl
        have hsub1 : ((r.db.orders.filter p)).Sublist ((db.orders.filter p)) := by
          rw [hdbo]
          exact filter_saveOrder_sublist db.orders r.order p (hp r.order hful)
        exact (ih r.user r.db (w - r.satisfiedSatoshiAmount)
          (sat + r.satisfiedSatoshiAmount) (usd + r.transactionUsdCentsAmount)
          (frags ++ [⟨o.id, o.limitPrice, r.satisfiedSatoshiAmount,
            r.transactionUsdCentsAmount⟩])
          (evs ++ r.events) hex hw).trans hsub1

theorem sellView_prices_sorted (db : DB) (lim : ℚ) :
    ((sellView db lim).map StandingOrder.limitPrice).Sorted (· ≤ ·) := by
  have h := List.sorted_insertionSort priceLE (db.orders.filter (sellViewPred lim))
  rw [sellView, List.Sorted, List.pairwise_map]
  exact h

theorem buyView_prices_sorted (db : DB) (lim : ℚ) :
    ((buyView db lim).map StandingOrder.limitPrice).Sorted (· ≥ ·) := by
  have h := List.sorted_insertionSort priceGE (db.orders.filter (buyViewPred lim))
  rw [buyView, List.Sorted, List.pairwise_map]
  exact h

theorem insertionSort_subperm_of_sublist {α : Type} (r : α → α → Prop) [DecidableRel r]
    {l l' : List α} (h : l'.Sublist l) :
    (l'.insertionSort r).Subperm (l.insertionSort r) :=
  ((List.perm_insertionSort r l').subperm.trans h.subperm).trans
    (List.perm_insertionSort r l).symm.subperm

theorem get_mem_drop (l : List ℚ) (off i : ℕ) (h : off + i < l.length) :
    l.get ⟨off + i, h⟩ ∈ l.drop off := by
  have hlen : i < (l.drop off).length := by simp; omega
  have hg : (l.drop off).get ⟨i, hlen⟩ = l.get ⟨off + i, h⟩ := by rw [List.get_drop]
  rw [← hg]
  exact List.get_mem _ _ _

theorem sorted_le_mem_take (l : List ℚ) (hl : l.Sorted (· ≤ ·)) (m : ℕ) (hm : m < l.length) :
    ∀ q ∈ l.take (m + 1), q ≤ l.get ⟨m, hm⟩ := by
  intro q hq
  obtain ⟨j, hj⟩ := List.mem_iff_get.mp hq
  have hjl : j.1 < l.length := by have := j.2; simp at this; omega
  have hjt : (l.take (m + 1)).get j = l.get ⟨j.1, hjl⟩ := List.get_take' l
  rw [← hj, hjt]
  rcases Nat.lt_or_ge j.1 m with h | h
  · exact List.pairwise_iff_get.mp hl ⟨j.1, hjl⟩ ⟨m, hm⟩ h
  · have hje : j.1 = m := by have := j.2; simp at this; omega
    exact le_of_eq (by congr 1; exact Fin.ext (by simpa using hje))

theorem sorted_ge_mem_take (l : List ℚ) (hl : l.Sorted (· ≥ ·)) (m : ℕ) (hm : m < l.length) :
    ∀ q ∈ l.take (m + 1), l.get ⟨m, hm⟩ ≤ q := by
  intro q hq
  obtain ⟨j, hj⟩ := List.mem_iff_get.mp hq
  have hjl : j.1 < l.length := by have := j.2; simp at this; omega
  have hjt : (l.take (m + 1)).get j = l.get ⟨j.1, hjl⟩ := List.get_take' l
  rw [← hj, hjt]
  rcases Nat.lt_or_ge j.1 m with h | h
  · exact List.pairwise_iff_get.mp hl ⟨j.1, hjl⟩ ⟨m, hm⟩ h
  · have hje : j.1 = m := by have := j.2; simp at this; omega
    exact le_of_eq (by congr 1; exact (Fin.ext (by simpa using hje)).symm)

theorem getStandingSellOrders_prices (db : DB) (lim : ℚ) (off size : ℕ) :
    ((getStandingSellOrders db lim off size).1.map fun pr => pr.1.limitPrice) =
      (((sellView db lim).map StandingOrder.limitPrice).drop off).take size := by
  simp [getStandingSellOrders, List.map_map, Function.comp_def, List.map_take,
    List.map_drop]

theorem getStandingBuyOrders_prices (db : DB) (lim : ℚ) (off size : ℕ) :
    ((getStandingBuyOrders db lim off size).1.map fun pr => pr.1.limitPrice) =
      (((buyView db lim).map StandingOrder.limitPrice).drop off).take size := by
  simp [getStandingBuyOrders, List.map_map, Function.comp_def, List.map_take,
    List.map_drop]

theorem sellViewPred_of_fulfilled (lim : ℚ) :
    ∀ x : StandingOrder, x.state = OState.fulfilled → sellViewPred lim x = false := by
  intro x hx
  simp [sellViewPred, hx]

theorem buyViewPred_of_fulfilled (lim : ℚ) :
    ∀ x : StandingOrder, x.state = OState.fulfilled → buyViewPred lim x = false := by
  intro x hx
  simp [buyViewPred, hx]

/-- The fragments recorded by a BUY scan carry nondecreasing limit prices:
resting SELL orders are consumed in ascending price order. -/
theorem buyScanLoop_sorted (fuel : ℕ) :
    ∀ u db w lim off sat usd frags evs,
      (frags.map Frag.price).Sorted (· ≤ ·) →
      (0 < w → ∀ q ∈ frags.map Frag.price,
        ∀ x ∈ (((sellView db lim).map StandingOrder.limitPrice).drop off), q ≤ x) →
      ((buyScanLoop fuel u db w lim off sat usd frags evs).1.frags.map
        Frag.price).Sorted (· ≤ ·) := by
  induction fuel with
  | zero =>
    intro u db w lim off sat usd frags evs hs _
    simpa [buyScanLoop] using hs
  | succ fuel ih =>
    intro u db w lim off sat usd frags evs hs hinv
    simp only [buyScanLoop]
    by_cases hw : w ≤ 0
    · simpa [hw] using hs
    · have hinv' := hinv (by omega)
      set Vp := (sellView db lim).map StandingOrder.limitPrice with hVp
      have hVs : Vp.Sorted (· ≤ ·) := sellView_prices_sorted db lim
      set page := (getStandingSellOrders db lim off 10).1 with hpage
      obtain ⟨new, k, hf, hpr⟩ := buyPageLoop_prices page u db w sat usd frags evs
      have hpagep : (page.map fun pr => pr.1.limitPrice) = (Vp.drop off).take 10 :=
        getStandingSellOrders_prices db lim off 10
      have hnewsub : (new.map Frag.price).Sublist ((Vp.drop off).take 10) := by
        rw [hpr, hpagep]
        exact List.take_sublist _ _
      have hnewdrop : ∀ b ∈ new.map Frag.price, b ∈ Vp.drop off := fun b hb =>
        (hnewsub.trans (List.take_sublist _ _)).subset hb
      have hsorted' : ((frags ++ new).map Frag.price).Sorted (· ≤ ·) := by
        rw [List.map_append, List.Sorted, List.pairwise_append]
        refine ⟨hs, ?_, ?_⟩
        · exact List.Pairwise.sublist
            ((hnewsub.trans (List.take_sublist _ _)).trans (List.drop_sublist _ _)) hVs
        · intro a ha b hb
          exact hinv' a ha b (hnewdrop b hb)
      set pres := buyPageLoop u db w page sat usd frags evs with hpres
      by_cases hex : pres.1.exhausted
      · rw [if_neg hw, if_pos hex, hf]
        exact hsorted'
      · by_cases hsh : (getStandingSellOrders db lim off 10).2
        · rw [if_neg hw, if_neg hex, if_pos hsh, hf]
          exact hsorted'
        · rw [if_neg hw, if_neg hex, if_neg hsh]
          refine ih pres.1.user pres.1.db pres.2 lim (off + 10)
            pres.1.satisfiedSatoshiAmount pres.1.usdCentsAmount pres.1.frags pres.1.events
            (by rw [hf]; exact hsorted') ?_
          intro hw2 q hq x hx
          have hfull : (((sellView db lim).drop off).take 10).length = 10 := by
            have h1 : (getStandingSellOrders db lim off 10).2 =
                decide ((((sellView db lim).drop off).take 10).length < 10) := rfl
            rw [h1] at hsh
            have h2 : ¬ ((((sellView db lim).drop off).take 10).length < 10) := by
              simpa using hsh
            have h3 : ((((sellView db lim).drop off).take 10).length ≤ 10) := by simp
            omega
          have h9 : off + 9 < Vp.length := by
            have h4 : (((sellView db lim).drop off).length) ≥ 10 := by
              have := List.length_take 10 ((sellView db lim).drop off)
              omega
            have h5 : (sellView db lim).length ≥ off + 10 := by
              have := List.length_drop off (sellView db lim)
              omega
            simp [hVp]
            omega
          set p := Vp.get ⟨off + 9, h9⟩ with hp
          have h9d : 9 < (Vp.drop off).length := by simp; omega
          have hpd : (Vp.drop off).get ⟨9, h9d⟩ = p := by
            rw [hp, List.get_drop]
          have hVds : (Vp.drop off).Sorted (· ≤ ·) :=
            List.Pairwise.sublist (List.drop_sublist _ _) hVs
          have hqp : q ≤ p := by
            rw [hf, List.map_append] at hq
            rcases List.mem_append.mp hq with hq1 | hq2
            · exact hinv' q hq1 p (get_mem_drop Vp off 9 h9)
            · have hq3 : q ∈ (Vp.drop off).take 10 := hnewsub.subset hq2
              have := sorted_le_mem_take (Vp.drop off) hVds 9 h9d q (by
                simpa using hq3)
              rwa [hpd] at this
          have hcount : Vp.countP (fun y => decide (y < p)) ≤ off + 9 :=
            sorted_le_countP_le Vp hVs (off + 9) h9
          have hflt : ((pres.1.db.orders.filter (sellViewPred lim))).Sublist
              ((db.orders.filter (sellViewPred lim))) :=
            buyPageLoop_filter (sellViewPred lim) (sellViewPred_of_fulfilled lim) page
              u db w sat usd frags evs (by simpa using hex) (by rw [← hpres]; omega)
          have hsubv : (sellView pres.1.db lim).Subperm (sellView db lim) := by
            rw [sellView, sellView]
            exact insertionSort_subperm_of_sublist priceLE hflt
          have hcount2 : ((sellView pres.1.db lim).map
              StandingOrder.limitPrice).countP (fun y => decide (y < p)) ≤ off + 10 := by
            have e1 : ((sellView pres.1.db lim).map StandingOrder.limitPrice).countP
                (fun y => decide (y < p)) =
                (sellView pres.1.db lim).countP (fun o => decide (o.limitPrice < p)) :=
              List.countP_map _ _ _
            have e2 : Vp.countP (fun y => decide (y < p)) =
                (sellView db lim).countP (fun o => decide (o.limitPrice < p)) := by
              rw [hVp]
              exact List.countP_map _ _ _
            have e3 := hsubv.countP_le (fun o => decide (o.limitPrice < p))
            omega
          have hVs2 : ((sellView pres.1.db lim).map StandingOrder.limitPrice).Sorted
              (· ≤ ·) := sellView_prices_sorted pres.1.db lim
          have hpx : p ≤ x :=
            sorted_le_drop_ge _ hVs2 (off + 10) p hcount2 x hx
          exact le_trans hqp hpx

/-- The fragments recorded by a SELL scan carry nonincreasing limit prices:
resting BUY orders are consumed in descending price order. -/
theorem sellScanLoop_sorted (fuel : ℕ) :
    ∀ u db w lim off sat usd frags evs,
      (frags.map Frag.price).Sorted (· ≥ ·) →
      (0 < w → ∀ q ∈ frags.map Frag.price,
        ∀ x ∈ (((buyView db lim).map StandingOrder.limitPrice).drop off), x ≤ q) →
      ((sellScanLoop fuel u db w lim off sat usd frags evs).1.frags.map
        Frag.price).Sorted (· ≥ ·) := by
  induction fuel with
  | zero =>
    intro u db w lim off sat usd frags evs hs _
    simpa [sellScanLoop] using hs
  | succ fuel ih =>
    intro u db w lim off sat usd frags evs hs hinv
    simp only [sellScanLoop]
    by_cases hw : w ≤ 0
    · simpa [hw] using hs
    · have hinv' := hinv (by omega)
      set Vp := (buyView db lim).map StandingOrder.limitPrice with hVp
      have hVs : Vp.Sorted (· ≥ ·) := buyView_prices_sorted db lim
      set page := (getStandingBuyOrders db lim off 10).1 with hpage
      obtain ⟨new, k, hf, hpr⟩ := sellPageLoop_prices page u db w sat usd frags evs
      have hpagep : (page.map fun pr => pr.1.limitPrice) = (Vp.drop off).take 10 :=
        getStandingBuyOrders_prices db lim off 10
      have hnewsub : (new.map Frag.price).Sublist ((Vp.drop off).take 10) := by
        rw [hpr, hpagep]
        exact List.take_sublist _ _
      have hnewdrop : ∀ b ∈ new.map Frag.price, b ∈ Vp.drop off := fun b hb =>
        (hnewsub.trans (List.take_sublist _ _)).subset hb
      have hsorted' : ((frags ++ new).map Frag.price).Sorted (· ≥ ·) := by
        rw [List.map_append, List.Sorted, List.pairwise_append]
        refine ⟨hs, ?_, ?_⟩
        · exact List.Pairwise.sublist
            ((hnewsub.trans (List.take_sublist _ _)).trans (List.drop_sublist _ _)) hVs
        · intro a ha b hb
          exact hinv' a ha b (hnewdrop b hb)
      set pres := sellPageLoop u db w page sat usd frags evs with hpres
      by_cases hex : pres.1.exhausted
      · rw [if_neg hw, if_pos hex, hf]
        exact hsorted'
      · by_cases hsh : (getStandingBuyOrders db lim off 10).2
        · rw [if_neg hw, if_neg hex, if_pos hsh, hf]
          exact hsorted'
        · rw [if_neg hw, if_neg hex, if_neg hsh]
          refine ih pres.1.user pres.1.db pres.2 lim (off + 10)
            pres.1.satisfiedSatoshiAmount pres.1.usdCentsAmount pres.1.frags pres.1.events
            (by rw [hf]; exact hsorted') ?_
          intro hw2 q hq x hx
          have hfull : (((buyView db lim).drop off).take 10).length = 10 := by
            have h1 : (getStandingBuyOrders db lim off 10).2 =
                decide ((((buyView db lim).drop off).take 10).length < 10) := rfl
            rw [h1] at hsh
            have h2 : ¬ ((((buyView db lim).drop off).take 10).length < 10) := by
              simpa using hsh
            have h3 : ((((buyView db lim).drop off).take 10).length ≤ 10) := by simp
            omega
          have h9 : off + 9 < Vp.length := by
            have h4 : (((buyView db lim).drop off).length) ≥ 10 := by
              have := List.length_take 10 ((buyView db lim).drop off)
              omega
            have h5 : (buyView db lim).length ≥ off + 10 := by
              have := List.length_drop off (buyView db lim)
              omega
            simp [hVp]
            omega
          set p := Vp.get ⟨off + 9, h9⟩ with hp
          have h9d : 9 < (Vp.drop off).length := by simp; omega
          have hpd : (Vp.drop off).get ⟨9, h9d⟩ = p := by
            rw [hp, List.get_drop]
          have hVds : (Vp.drop off).Sorted (· ≥ ·) :=
            List.Pairwise.sublist (List.drop_sublist _ _) hVs
          have hqp : p ≤ q := by
            rw [hf, List.map_append] at hq
            rcases List.mem_append.mp hq with hq1 | hq2
            · exact hinv' q hq1 p (get_mem_drop Vp off 9 h9)
            · have hq3 : q ∈ (Vp.drop off).take 10 := hnewsub.subset hq2
              have := sorted_ge_mem_take (Vp.drop off) hVds 9 h9d q (by
                simpa using hq3)
              rwa [hpd] at this
          have hcount : Vp.countP (fun y => decide (p < y)) ≤ off + 9 :=
            sorted_ge_countP_le Vp hVs (off + 9) h9
          have hflt : ((pres.1.db.orders.filter (buyViewPred lim))).Sublist
              ((db.orders.filter (buyViewPred lim))) :=
            sellPageLoop_filter (buyViewPred lim) (buyViewPred_of_fulfilled lim) page
              u db w sat usd frags evs (by simpa using hex) (by rw [← hpres]; omega)
          have hsubv : (buyView pres.1.db lim).Subperm (buyView db lim) := by
            rw [buyView, buyView]
            exact insertionSort_subperm_of_sublist priceGE hflt
          have hcount2 : ((buyView pres.1.db lim).map
              StandingOrder.limitPrice).countP (fun y => decide (p < y)) ≤ off + 10 := by
            have e1 : ((buyView pres.1.db lim).map StandingOrder.limitPrice).countP
                (fun y => decide (p < y)) =
                (buyView pres.1.db lim).countP (fun o => decide (p < o.limitPrice)) :=
              List.countP_map _ _ _
            have e2 : Vp.countP (fun y => decide (p < y)) =
                (buyView db lim).countP (fun o => decide (p < o.limitPrice)) := by
              rw [hVp]
              exact List.countP_map _ _ _
            have e3 := hsubv.countP_le (fun o => decide (p < o.limitPrice))
            omega
          have hVs2 : ((buyView pres.1.db lim).map StandingOrder.limitPrice).Sorted
              (· ≥ ·) := buyView_prices_sorted pres.1.db lim
          have hpx : x ≤ p :=
            sorted_ge_drop_le _ hVs2 (off + 10) p hcount2 x hx
          exact le_trans hpx hqp

def c7Buyer : User := ⟨"M", 10000000, 0⟩

/-- Three resting SELL orders at 12000, 10000 and 15000 USD per BTC
(0.012, 0.010 and 0.015 cents per Satoshi). -/
def c7DB : DB := ⟨[c7Buyer, ⟨"S1", 0, 1000000000⟩, ⟨"S2", 0, 1000000000⟩,
    ⟨"S3", 0, 1000000000⟩],
  [⟨1, "S1", OType.sell, OState.live, 12 / 1000, 0, 0, 1000000000, ""⟩,
   ⟨2, "S2", OType.sell, OState.live, 1 / 100, 0, 0, 1000000000, ""⟩,
   ⟨3, "S3", OType.sell, OState.live, 15 / 1000, 0, 0, 1000000000, ""⟩], 4⟩

/-- Claim C7: matching settles resting orders in strict price priority — a
BUY demand consumes LIVE SELL orders in ascending limit-price order and a
SELL demand consumes LIVE BUY orders in descending limit-price order; in
particular, with resting SELL orders at limit prices [12000, 10000, 15000]
and a BUY market order fully coverable by the 10000-priced order alone, the
10000-priced order (identifier 2) is the one consumed. -/
theorem c7_price_priority (db : DB) (u : User) (w : ℤ) (lim : ℚ) :
    ((BuySatoshis db u w lim).frags.map Frag.price).Sorted (· ≤ ·) ∧
    ((SellSatoshis db u w lim).frags.map Frag.price).Sorted (· ≥ ·) ∧
    (BuySatoshis c7DB c7Buyer 500000000 0).frags.map Frag.orderId = [2] := by
  refine ⟨?_, ?_, of_decide_eq_true (by with_unfolding_all rfl)⟩
  · rw [BuySatoshis_frags]
    exact buyScanLoop_sorted (db.orders.length + 1) u db w lim 0 0 0 [] []
      (by simp) (by simp)
  · rw [SellSatoshis_frags]
    exact sellScanLoop_sorted (db.orders.length + 1) u db w lim 0 0 0 [] []
      (by simp) (by simp)

end BitcoinExchange
